import Mathlib

/-!
# The byte-stream layer of BFS (`fs.c`)

A shallow embedding of `fsSeek`, `fsTell`, `fsSize`, `fsRead` and `fsWrite`
from `src/fs.c`, over a model of the block layer (`bfs.h`) that the file
calls but that is not part of the sources.

* `i32` values are `Int`; the additions that can leave the 32-bit range
  (`curs += offset`, `end + offset`, `fbn++`, `fbn--`) go through `wrap32`.
* Buffers (`i8 buf[...]`) are maps from an index to a byte; only the indices
  inside the C array are meaningful.
* `FATAL(e)` aborts the process: the operations return `Except Err _`.
* The two `while` loops run on fuel (the byte count, an upper bound on the
  number of iterations); `Err.FUEL` marks a loop that did not finish, and the
  theorems show it is never returned.
-/

namespace Bfs

/-- An `i8` value. Bytes are only copied and compared with zero. -/
abbrev Byte := Int

/-- A C byte array, addressed by index. -/
abbrev Buf := Int → Byte

/-- Modelled from the spec: the block size constant `BYTESPERBLOCK` of the
missing header `bfs.h` ("Block size: fixed byte granularity of the underlying
store (e.g., 512 bytes)"). -/
def BYTESPERBLOCK : Int := 512

/-- The `SEEK_SET` whence value of `<stdio.h>`. -/
def SEEK_SET : Int := 0

/-- The `SEEK_CUR` whence value of `<stdio.h>`. -/
def SEEK_CUR : Int := 1

/-- The `SEEK_END` whence value of `<stdio.h>`. -/
def SEEK_END : Int := 2

/-- The reasons for which the code stops: the two `FATAL` codes of `fsSeek`,
and `FUEL` for a loop of the model that ran out of fuel. -/
inductive Err where
  | EBADCURS
  | EBADWHENCE
  | FUEL
  deriving DecidableEq, Repr

/-- Two's-complement wrap-around of a 32-bit signed integer. -/
def wrap32 (x : Int) : Int := (x + 2147483648) % 4294967296 - 2147483648

/-- Modelled from the spec: an entry of the open file table `g_oft` of the
missing `bfs.h` (spec §3: `inode`, `cursor`, `refcount`). -/
structure OFTE where
  inum : Int
  curs : Int
  refs : Int

/-- Calls into the block layer that change storage, in the order made. -/
inductive Event where
  | alloc (inum fbn : Int)
  | write (dbn : Int)
  deriving DecidableEq, Repr

/-- Modelled from the spec: the state owned by the missing block layer
(`bfs.c`, `bio.c`), as far as `fs.c` observes it (spec §3, §6).
`fdInum` is `resolveHandle`, `oftSlot` the slot of the table entry bound to an
inode, `g_oft` the open file table, `dbnOf` the logical-to-physical block map
(`blockFor`, a negative value meaning unallocated), `disk` the raw block store,
`nextFree` the first block never handed out by the allocator, `size` the
high-water mark reported for an inode, and `trace` the storage calls made. -/
structure BFS where
  fdInum : Int → Int
  oftSlot : Int → Nat
  g_oft : Nat → OFTE
  dbnOf : Int → Int → Int
  disk : Int → Buf
  nextFree : Int
  size : Int → Int
  trace : List Event

/-- Modelled from the spec: `bfsFdToInum` of the missing `bfs.c`
(`resolveHandle(handle) -> inode`). -/
def bfsFdToInum (s : BFS) (fd : Int) : Int := s.fdInum fd

/-- Modelled from the spec: `bfsFindOFTE` of the missing `bfs.c`, the slot of
the open file table entry bound to `inum` (spec §3: one entry per inode). -/
def bfsFindOFTE (s : BFS) (inum : Int) : Nat := s.oftSlot inum

/-- Modelled from the spec: `bfsTell` of the missing `bfs.c`
(`tell(handle) -> cursor`). -/
def bfsTell (s : BFS) (fd : Int) : Int :=
  (s.g_oft (bfsFindOFTE s (bfsFdToInum s fd))).curs

/-- Modelled from the spec: `bfsFbnToDbn` of the missing `bfs.c`
(`blockFor(inode, fbn) -> dbn | Unallocated`). -/
def bfsFbnToDbn (s : BFS) (inum fbn : Int) : Int := s.dbnOf inum fbn

/-- Modelled from the spec: `bioRead` of the missing `bio.c`
(`readBlock(dbn) -> fixed-size buffer`, no failure mode). -/
def bioRead (s : BFS) (dbn : Int) : Buf := s.disk dbn

/-- Modelled from the spec: `bioWrite` of the missing `bio.c`
(`writeBlock(dbn, buffer)`). -/
def bioWrite (s : BFS) (dbn : Int) (buf : Buf) : BFS :=
  { s with
    disk := fun d => if d = dbn then buf else s.disk d
    trace := s.trace ++ [Event.write dbn] }

/-- Modelled from the spec: `bfsRead` of the missing `bfs.c`, the fetch of a
logical block through the block map (§4.3: "fetch the logical block's current
contents via the allocation+raw-block collaborators"). -/
def bfsRead (s : BFS) (inum fbn : Int) : Buf := bioRead s (bfsFbnToDbn s inum fbn)

/-- Modelled from the spec: `bfsAllocBlock` of the missing `bfs.c`
(`allocateBlock(inode, fbn)`: "allocates and binds a fresh physical block",
"a fresh, logically zero-filled block"; allocation always succeeds; the size is
the high-water mark, "informed by the highest logical block ever allocated"). -/
def bfsAllocBlock (s : BFS) (inum fbn : Int) : BFS :=
  { s with
    dbnOf := fun i f => if i = inum ∧ f = fbn then s.nextFree else s.dbnOf i f
    disk := fun d => if d = s.nextFree then (fun _ => 0) else s.disk d
    nextFree := s.nextFree + 1
    size := fun i =>
      if i = inum then max (s.size i) ((fbn + 1) * BYTESPERBLOCK) else s.size i
    trace := s.trace ++ [Event.alloc inum fbn] }

/-- Modelled from the spec: `bfsGetSize` of the missing `bfs.c`
(`highWaterMark(inode) -> byte count`). -/
def bfsGetSize (s : BFS) (inum : Int) : Int := s.size inum

/-- The C call `memcpy(&dst[d], &src[s], n)`; nothing is copied when `n ≤ 0`. -/
def memcpy (dst : Buf) (d : Int) (src : Buf) (s n : Int) : Buf :=
  fun p => if d ≤ p ∧ p < d + n then src (s + (p - d)) else dst p

/-- The C call `memset(dst, v, n)`. -/
def memset (dst : Buf) (v : Byte) (n : Int) : Buf :=
  fun p => if 0 ≤ p ∧ p < n then v else dst p

/-- An array initialised with `= {0}`; also stands for an array not yet
written. -/
def zeroBuf : Buf := fun _ => 0

/-- The assignment `g_oft[ofte].curs = c`. -/
def setCurs (s : BFS) (ofte : Nat) (c : Int) : BFS :=
  { s with g_oft := fun i => if i = ofte then { s.g_oft i with curs := c } else s.g_oft i }

/-- The function `fsTell` (fs.c:178). -/
def fsTell (s : BFS) (fd : Int) : Int := bfsTell s fd

/-- The function `fsSize` (fs.c:189). -/
def fsSize (s : BFS) (fd : Int) : Int :=
  let inum := bfsFdToInum s fd
  bfsGetSize s inum

/-- The function `fsSeek` (fs.c:148): the new state and the returned value. -/
def fsSeek (s : BFS) (fd offset whence : Int) : Except Err (BFS × Int) :=
  if offset < 0 then Except.error Err.EBADCURS
  else
    let inum := bfsFdToInum s fd
    let ofte := bfsFindOFTE s inum
    if whence = SEEK_SET then
      Except.ok (setCurs s ofte offset, 0)
    else if whence = SEEK_CUR then
      Except.ok (setCurs s ofte (wrap32 ((s.g_oft ofte).curs + offset)), 0)
    else if whence = SEEK_END then
      let fend := fsSize s fd
      Except.ok (setCurs s ofte (wrap32 (fend + offset)), 0)
    else Except.error Err.EBADWHENCE

/-- The `while (remainingBytes > 0)` loop of `fsRead` (fs.c:94-111): the
staging buffer `wholeBuffer` and the value of `fbn` when the loop ends. -/
def readLoop (s : BFS) (inum : Int) :
    Nat → Buf → Int → Int → Int → Option (Buf × Int)
  | 0, wholeBuffer, _, remainingBytes, fbn =>
    if remainingBytes > 0 then none else some (wholeBuffer, fbn)
  | fuel + 1, wholeBuffer, bytesRead, remainingBytes, fbn =>
    if remainingBytes > 0 then
      let blockBuffer := bfsRead s inum fbn
      let bytesToRead :=
        if remainingBytes > BYTESPERBLOCK then BYTESPERBLOCK else remainingBytes
      let wholeBuffer1 := memcpy wholeBuffer bytesRead blockBuffer 0 bytesToRead
      readLoop s inum fuel wholeBuffer1 (bytesRead + bytesToRead)
        (remainingBytes - bytesToRead) (wrap32 (fbn + 1))
    else some (wholeBuffer, fbn)

/-- The `for` loop of `fsRead` (fs.c:118-125) after `k` bytes remain to be
looked at: the number of zero bytes counted from index `k - 1` downwards until
the first non-zero byte. `trailingZeros blockBuffer BYTESPERBLOCK` is
`notRead`. -/
def trailingZeros (blockBuffer : Buf) : Nat → Nat
  | 0 => 0
  | k + 1 => if blockBuffer (k : Int) = 0 then trailingZeros blockBuffer k + 1 else 0

/-- The function `fsRead` (fs.c:85): the new state, the returned value, and the
caller's buffer `buf` after the call. `wholeBuffer`, not initialised in C,
starts as `zeroBuf`; the loop overwrites every index that is read later. -/
def fsRead (s : BFS) (fd numb : Int) (buf : Buf) : Except Err (BFS × Int × Buf) :=
  let fbn := Int.tdiv (bfsTell s fd) BYTESPERBLOCK
  let inum := bfsFdToInum s fd
  let tempNumb := numb
  if tempNumb > BYTESPERBLOCK then
    match readLoop s inum tempNumb.toNat zeroBuf 0 tempNumb fbn with
    | none => Except.error Err.FUEL
    | some (wholeBuffer, fbn1) =>
      let buf1 := memcpy buf 0 wholeBuffer 0 tempNumb
      let fbn2 := wrap32 (fbn1 - 1)
      let blockBuffer := bfsRead s inum fbn2
      let notRead : Int := trailingZeros blockBuffer BYTESPERBLOCK.toNat
      let tempNumb1 := tempNumb - notRead
      match fsSeek s fd tempNumb1 SEEK_CUR with
      | Except.error e => Except.error e
      | Except.ok (s1, _) => Except.ok (s1, tempNumb1, buf1)
  else
    let wholeBuffer := bfsRead s inum fbn
    let buf1 := memcpy buf 0 wholeBuffer 0 tempNumb
    match fsSeek s fd tempNumb SEEK_CUR with
    | Except.error e => Except.error e
    | Except.ok (s1, _) => Except.ok (s1, tempNumb, buf1)

/-- The block fetch that `fsWrite` does twice (fs.c:211-218 and 238-245): an
unallocated block is allocated and the buffer zeroed, an allocated one is read.
Gives the state, the `dbn` and the block buffer. -/
def fetchBlock (s : BFS) (inum fbn : Int) (blockBuffer : Buf) : BFS × Int × Buf :=
  let dbn := bfsFbnToDbn s inum fbn
  if dbn < 0 then
    let s1 := bfsAllocBlock s inum fbn
    (s1, bfsFbnToDbn s1 inum fbn, memset blockBuffer 0 BYTESPERBLOCK)
  else (s, dbn, bfsRead s inum fbn)

/-- The `while (remainder > 0)` loop of `fsWrite` (fs.c:221-246). -/
def writeLoop (inum numb : Int) (wholeBuffer : Buf) :
    Nat → BFS → Int → Int → Int → Int → Buf → Option BFS
  | 0, s, remainder, _, _, _, _ => if remainder > 0 then none else some s
  | fuel + 1, s, remainder, currBlockOffset, fbn, dbn, blockBuffer =>
    if remainder > 0 then
      let currBytesLeft := BYTESPERBLOCK - currBlockOffset
      let bytesToWrite := if remainder > currBytesLeft then currBytesLeft else remainder
      let blockBuffer1 :=
        memcpy blockBuffer currBlockOffset wholeBuffer (numb - remainder) bytesToWrite
      let s1 := bioWrite s dbn blockBuffer1
      let fbn1 := wrap32 (fbn + 1)
      let r := fetchBlock s1 inum fbn1 blockBuffer1
      writeLoop inum numb wholeBuffer fuel r.1 (remainder - bytesToWrite) 0 fbn1 r.2.1 r.2.2
    else some s

/-- The function `fsWrite` (fs.c:201): the new state and the returned value. -/
def fsWrite (s : BFS) (fd numb : Int) (buf : Buf) : Except Err (BFS × Int) :=
  let wholeBuffer := memcpy zeroBuf 0 buf 0 numb
  let fbn := Int.tdiv (bfsTell s fd) BYTESPERBLOCK
  let inum := bfsFdToInum s fd
  let r := fetchBlock s inum fbn zeroBuf
  let remainder := numb
  let currBlockOffset := Int.tmod (fsTell r.1 fd) BYTESPERBLOCK
  match writeLoop inum numb wholeBuffer numb.toNat r.1 remainder currBlockOffset fbn r.2.1 r.2.2 with
  | none => Except.error Err.FUEL
  | some s2 =>
    match fsSeek s2 fd numb SEEK_CUR with
    | Except.error e => Except.error e
    | Except.ok (s3, _) => Except.ok (s3, 0)

/-- A buffer holding the bytes of a list, from index 0. -/
def ofList (l : List Byte) : Buf := fun p => if 0 ≤ p then l.getD p.toNat 0 else 0

/-- A formatted file system with nothing allocated and every cursor at 0; the
handle `fd` is bound to inode `fd`, whose table entry sits in slot `fd`. -/
def emptyFS : BFS where
  fdInum := fun fd => fd
  oftSlot := fun inum => inum.toNat
  g_oft := fun i => { inum := (i : Int), curs := 0, refs := 1 }
  dbnOf := fun _ _ => -1
  disk := fun _ _ => 0
  nextFree := 0
  size := fun _ => 0
  trace := []

/-- The state of an operation that returned, `emptyFS` when it aborted. -/
def stateOf {α : Type} (r : Except Err (BFS × α)) : BFS :=
  match r with
  | Except.ok (s, _) => s
  | Except.error _ => emptyFS

/-- The value returned by `fsSeek` or `fsWrite`, if it returned. -/
def retOf (r : Except Err (BFS × Int)) : Option Int :=
  match r with
  | Except.ok (_, v) => some v
  | Except.error _ => none

/-- The value returned by `fsRead`, if it returned. -/
def readRet (r : Except Err (BFS × Int × Buf)) : Option Int :=
  match r with
  | Except.ok (_, v, _) => some v
  | Except.error _ => none

/-- The caller's buffer after `fsRead`, if it returned. -/
def readBuf (r : Except Err (BFS × Int × Buf)) : Option Buf :=
  match r with
  | Except.ok (_, _, b) => some b
  | Except.error _ => none

/-- The ten bytes of the text HELLOWORLD. -/
def helloWorld : Buf := ofList [72, 69, 76, 76, 79, 87, 79, 82, 76, 68]

/-- The state after `fsWrite(3, 10, "HELLOWORLD")` on `emptyFS`. -/
def helloFS : BFS := stateOf (fsWrite emptyFS 3 10 helloWorld)

/-- The state `helloFS` after `fsSeek(3, 5, SEEK_SET)`. -/
def helloAt5 : BFS := stateOf (fsSeek helloFS 3 5 SEEK_SET)

/-- The state `helloFS` after `fsSeek(3, 0, SEEK_END)`. -/
def helloEndFS : BFS := stateOf (fsSeek helloFS 3 0 SEEK_END)

/-- A source buffer of bytes that are all 1. -/
def ones : Buf := fun _ => 1

/-- The state after writing 522 bytes of value 1 to a fresh file of `emptyFS`
and seeking back to 0. -/
def onesFS : BFS := stateOf (fsSeek (stateOf (fsWrite emptyFS 3 522 ones)) 3 0 SEEK_SET)

/-- The state after writing one byte of value 0 to a fresh file of `emptyFS`
and seeking back to 0. -/
def zeroByteFS : BFS :=
  stateOf (fsSeek (stateOf (fsWrite emptyFS 3 1 zeroBuf)) 3 0 SEEK_SET)

/-- The state `emptyFS` after `fsSeek(3, 2147483647, SEEK_SET)`: the cursor at
the largest `i32`. -/
def maxCursFS : BFS := stateOf (fsSeek emptyFS 3 2147483647 SEEK_SET)

/-- The state `emptyFS` after `fsSeek(3, 2147483640, SEEK_SET)`. -/
def nearMaxFS : BFS := stateOf (fsSeek emptyFS 3 2147483640 SEEK_SET)

/-- The state `helloFS` after `fsSeek(3, 5000, SEEK_SET)`: the cursor beyond
the reported size. -/
def helloFarFS : BFS := stateOf (fsSeek helloFS 3 5000 SEEK_SET)

/-- The state `maxCursFS` after `fsSeek(3, 2147483647, SEEK_CUR)`. -/
def overflowFS : BFS := stateOf (fsSeek maxCursFS 3 2147483647 SEEK_CUR)

/-- The allocation state is consistent: every block handed out lies below the
allocator's frontier, and no physical block backs two logical blocks. -/
def WF (s : BFS) : Prop :=
  0 ≤ s.nextFree ∧ (∀ i f, s.dbnOf i f < s.nextFree) ∧
  (∀ i f i' f', 0 ≤ s.dbnOf i f → s.dbnOf i f = s.dbnOf i' f' → i = i' ∧ f = f')

/-- The file open on `fd` is freshly created: its cursor is 0 and none of its
logical blocks is allocated. -/
def Fresh (s : BFS) (fd : Int) : Prop :=
  bfsTell s fd = 0 ∧ ∀ f, bfsFbnToDbn s (bfsFdToInum s fd) f < 0

/-- The byte of the file `inum` at stream position `q`: the byte at intra-block
offset `q mod B` of logical block `q div B`. -/
def fileByte (s : BFS) (inum q : Int) : Byte :=
  bfsRead s inum (q / BYTESPERBLOCK) (q % BYTESPERBLOCK)

/-- What one block fetch of `fsWrite` (`fetchBlock` at logical block `fbn` of
`inum`) establishes, from the state `s` to the state `s1` with the `dbn` and the
block buffer `blk` it yields. -/
structure FetchPost (inum fbn : Int) (s s1 : BFS) (dbn : Int) (blk : Buf) : Prop where
  wf : WF s1
  fdInum : s1.fdInum = s.fdInum
  oftSlot : s1.oftSlot = s.oftSlot
  g_oft : s1.g_oft = s.g_oft
  dbn_eq : dbn = s1.dbnOf inum fbn
  dbn_nonneg : 0 ≤ dbn
  blk_eq : ∀ p, 0 ≤ p → p < 512 → blk p = s1.disk dbn p
  keep : ∀ i f, 0 ≤ s.dbnOf i f → s1.dbnOf i f = s.dbnOf i f
  disk : ∀ d, d < s.nextFree → s1.disk d = s.disk d
  fresh : ∀ i f, s.dbnOf i f < 0 → 0 ≤ s1.dbnOf i f →
    i = inum ∧ f = fbn ∧ ∀ p, s1.disk (s1.dbnOf i f) p = 0
  trace : ∃ evs, s1.trace = s.trace ++ evs ∧
    ∀ e, e ∈ evs → e = Event.alloc inum fbn ∧ s.dbnOf inum fbn < 0

/-- What the write loop of `fsWrite` establishes, from the state `s` at loop
entry to the state `s1` at loop exit, when `n` bytes of `src`, from index `k`,
remain to be stored at stream position `P` of the file `inum`. -/
structure WritePost (inum : Int) (src : Buf) (k P n : Int) (s s1 : BFS) : Prop where
  wf : WF s1
  fdInum : s1.fdInum = s.fdInum
  oftSlot : s1.oftSlot = s.oftSlot
  g_oft : s1.g_oft = s.g_oft
  keep : ∀ i f, 0 ≤ s.dbnOf i f → s1.dbnOf i f = s.dbnOf i f
  data : ∀ q, P ≤ q → q < P + n →
    0 ≤ s1.dbnOf inum (q / 512) ∧
      s1.disk (s1.dbnOf inum (q / 512)) (q % 512) = src (k + (q - P))
  frame : ∀ i f p, 0 ≤ p → p < 512 → 0 ≤ s.dbnOf i f →
    ¬ (i = inum ∧ P ≤ 512 * f + p ∧ 512 * f + p < P + n) →
    s1.disk (s1.dbnOf i f) p = s.disk (s.dbnOf i f) p
  fresh : ∀ i f p, 0 ≤ p → p < 512 → s.dbnOf i f < 0 → 0 ≤ s1.dbnOf i f →
    ¬ (i = inum ∧ P ≤ 512 * f + p ∧ 512 * f + p < P + n) →
    s1.disk (s1.dbnOf i f) p = 0
  trace : ∃ evs, s1.trace = s.trace ++ evs ∧
    (∀ d, Event.write d ∈ evs →
      ∃ f, P / 512 ≤ f ∧ f ≤ (P + n - 1) / 512 ∧ d = s1.dbnOf inum f) ∧
    (∀ i f, Event.alloc i f ∈ evs →
      i = inum ∧ P / 512 ≤ f ∧ f ≤ (P + n - 1) / 512 + 1 ∧ s.dbnOf i f < 0)

/-! ## Arithmetic of the code -/

theorem wrap32_eq {x : Int} (h0 : -2147483648 ≤ x) (h1 : x < 2147483648) : wrap32 x = x := by
  unfold wrap32
  omega

theorem tdiv_block {c : Int} (h : 0 ≤ c) : Int.tdiv c BYTESPERBLOCK = c / 512 := by
  unfold BYTESPERBLOCK
  exact Int.tdiv_eq_ediv h (by decide)

theorem tmod_block {c : Int} (h : 0 ≤ c) : Int.tmod c BYTESPERBLOCK = c % 512 := by
  unfold BYTESPERBLOCK
  exact Int.tmod_eq_emod h (by decide)

theorem trailingZeros_le (b : Buf) (k : Nat) : trailingZeros b k ≤ k := by
  induction k with
  | zero => simp [trailingZeros]
  | succ k ih =>
    unfold trailingZeros
    split <;> omega

theorem trailingZeros_pos {b : Buf} {k : Nat} (h : b (k : Int) = 0) :
    1 ≤ trailingZeros b (k + 1) := by
  unfold trailingZeros
  simp [h]

theorem trailingZeros_zero {b : Buf} {k : Nat} (h : b (k : Int) ≠ 0) :
    trailingZeros b (k + 1) = 0 := by
  unfold trailingZeros
  simp [h]

/-! ## The cursor -/

theorem fsSeek_cur (s : BFS) (fd offset : Int) (h : 0 ≤ offset) :
    fsSeek s fd offset SEEK_CUR =
      Except.ok (setCurs s (bfsFindOFTE s (bfsFdToInum s fd))
        (wrap32 (bfsTell s fd + offset)), 0) := by
  have h1 : ¬ offset < 0 := by omega
  simp [fsSeek, h1, SEEK_CUR, SEEK_SET, bfsTell]

theorem fsSeek_set (s : BFS) (fd offset : Int) (h : 0 ≤ offset) :
    fsSeek s fd offset SEEK_SET =
      Except.ok (setCurs s (bfsFindOFTE s (bfsFdToInum s fd)) offset, 0) := by
  have h1 : ¬ offset < 0 := by omega
  simp [fsSeek, h1, SEEK_SET]

theorem fsSeek_end (s : BFS) (fd offset : Int) (h : 0 ≤ offset) :
    fsSeek s fd offset SEEK_END =
      Except.ok (setCurs s (bfsFindOFTE s (bfsFdToInum s fd))
        (wrap32 (fsSize s fd + offset)), 0) := by
  have h1 : ¬ offset < 0 := by omega
  simp [fsSeek, h1, SEEK_END, SEEK_CUR, SEEK_SET]

theorem bfsTell_setCurs (s : BFS) (fd c : Int) :
    bfsTell (setCurs s (bfsFindOFTE s (bfsFdToInum s fd)) c) fd = c := by
  simp [bfsTell, setCurs, bfsFindOFTE, bfsFdToInum]

theorem bfsRead_setCurs (s : BFS) (k : Nat) (c inum fbn : Int) :
    bfsRead (setCurs s k c) inum fbn = bfsRead s inum fbn := rfl

theorem bfsFbnToDbn_setCurs (s : BFS) (k : Nat) (c inum fbn : Int) :
    bfsFbnToDbn (setCurs s k c) inum fbn = bfsFbnToDbn s inum fbn := rfl

theorem bfsFdToInum_setCurs (s : BFS) (k : Nat) (c fd : Int) :
    bfsFdToInum (setCurs s k c) fd = bfsFdToInum s fd := rfl

theorem bfsRead_congr (s : BFS) (inum : Int) {a a1 b b1 : Int} (ha : a = a1) (hb : b = b1) :
    bfsRead s inum a b = bfsRead s inum a1 b1 := by
  rw [ha, hb]

theorem readLoop_spec (s : BFS) (inum : Int) :
    ∀ (fuel : Nat) (whole : Buf) (br rem fbn : Int),
      0 ≤ rem → rem.toNat ≤ fuel → 0 ≤ fbn → 512 * fbn + rem ≤ 8589934592 →
      ∃ whole1, readLoop s inum fuel whole br rem fbn
          = some (whole1, fbn + (rem + 511) / 512) ∧
        ∀ p, whole1 p =
          if br ≤ p ∧ p < br + rem then
            bfsRead s inum (fbn + (p - br) / 512) ((p - br) % 512)
          else whole p := by
  intro fuel
  induction fuel with
  | zero =>
    intro whole br rem fbn h0 hf _ _
    have hr : rem = 0 := by omega
    subst hr
    refine ⟨whole, by simp [readLoop], ?_⟩
    intro p
    have : ¬ (br ≤ p ∧ p < br + 0) := by omega
    rw [if_neg this]
  | succ fuel ih =>
    intro whole br rem fbn h0 hf hfbn hb
    by_cases hr : rem > 0
    · have hw : wrap32 (fbn + 1) = fbn + 1 := wrap32_eq (by omega) (by omega)
      by_cases hbig : rem > 512
      · obtain ⟨w1, hw1, hw2⟩ := ih (memcpy whole br (bfsRead s inum fbn) 0 512) (br + 512)
          (rem - 512) (fbn + 1) (by omega) (by omega) (by omega) (by omega)
        refine ⟨w1, ?_, ?_⟩
        · simp only [readLoop, hr, BYTESPERBLOCK, hbig, if_true, hw, hw1]
          have : fbn + 1 + (rem - 512 + 511) / 512 = fbn + (rem + 511) / 512 := by omega
          rw [this]
        · intro p
          rw [hw2 p]
          simp only [memcpy]
          split_ifs <;>
            first
            | rfl
            | (exfalso; omega)
            | (apply bfsRead_congr <;> omega)
      · obtain ⟨w1, hw1, hw2⟩ := ih (memcpy whole br (bfsRead s inum fbn) 0 rem) (br + rem)
          (rem - rem) (fbn + 1) (by omega) (by omega) (by omega) (by omega)
        refine ⟨w1, ?_, ?_⟩
        · simp only [readLoop, hr, BYTESPERBLOCK, hbig, if_true, if_false, hw, hw1]
          have : fbn + 1 + (rem - rem + 511) / 512 = fbn + (rem + 511) / 512 := by omega
          rw [this]
        · intro p
          rw [hw2 p]
          simp only [memcpy]
          split_ifs <;>
            first
            | rfl
            | (exfalso; omega)
            | (apply bfsRead_congr <;> omega)
    · have hr0 : rem = 0 := by omega
      subst hr0
      refine ⟨whole, by simp [readLoop], ?_⟩
      intro p
      have : ¬ (br ≤ p ∧ p < br + 0) := by omega
      rw [if_neg this]

theorem fsRead_small (s : BFS) (fd numb : Int) (buf : Buf) (h0 : 0 ≤ numb)
    (h1 : numb ≤ 512) :
    fsRead s fd numb buf =
      Except.ok (setCurs s (bfsFindOFTE s (bfsFdToInum s fd)) (wrap32 (bfsTell s fd + numb)),
        numb,
        memcpy buf 0 (bfsRead s (bfsFdToInum s fd) (Int.tdiv (bfsTell s fd) BYTESPERBLOCK)) 0
          numb) := by
  have h2 : ¬ numb > BYTESPERBLOCK := by unfold BYTESPERBLOCK; omega
  simp only [fsRead, h2, if_false, fsSeek_cur s fd numb h0]

theorem fsRead_big (s : BFS) (fd numb : Int) (buf : Buf) (h1 : 512 < numb)
    (h2 : numb < 2147483648) (hc0 : 0 ≤ bfsTell s fd) (hc1 : bfsTell s fd < 2147483648) :
    ∃ whole : Buf,
      (∀ p, 0 ≤ p → p < numb →
        whole p = bfsRead s (bfsFdToInum s fd) (bfsTell s fd / 512 + p / 512) (p % 512)) ∧
      fsRead s fd numb buf =
        Except.ok (setCurs s (bfsFindOFTE s (bfsFdToInum s fd))
            (wrap32 (bfsTell s fd + (numb - (trailingZeros (bfsRead s (bfsFdToInum s fd)
              (bfsTell s fd / 512 + (numb + 511) / 512 - 1)) 512 : Nat)))),
          numb - (trailingZeros (bfsRead s (bfsFdToInum s fd)
              (bfsTell s fd / 512 + (numb + 511) / 512 - 1)) 512 : Nat),
          memcpy buf 0 whole 0 numb) := by
  obtain ⟨w, hw1, hw2⟩ := readLoop_spec s (bfsFdToInum s fd) numb.toNat zeroBuf 0 numb
    (bfsTell s fd / 512) (by omega) (le_refl _) (by omega) (by omega)
  refine ⟨w, ?_, ?_⟩
  · intro p hp0 hp1
    rw [hw2 p]
    have : (0 : Int) ≤ p ∧ p < 0 + numb := by omega
    rw [if_pos this]
    apply bfsRead_congr <;> omega
  · have hbig : numb > BYTESPERBLOCK := by unfold BYTESPERBLOCK; omega
    have hwr : wrap32 (bfsTell s fd / 512 + (numb + 511) / 512 - 1)
        = bfsTell s fd / 512 + (numb + 511) / 512 - 1 := wrap32_eq (by omega) (by omega)
    have hz := trailingZeros_le (bfsRead s (bfsFdToInum s fd)
      (bfsTell s fd / 512 + (numb + 511) / 512 - 1)) 512
    have hB : BYTESPERBLOCK.toNat = 512 := by decide
    simp only [fsRead, hbig, if_true, tdiv_block hc0, hw1, hwr, hB]
    rw [fsSeek_cur s fd _ (by omega)]

theorem WF_bioWrite {s : BFS} (h : WF s) (d : Int) (b : Buf) : WF (bioWrite s d b) := h

theorem WF_alloc {s : BFS} (h : WF s) (inum fbn : Int) :
    WF (bfsAllocBlock s inum fbn) := by
  obtain ⟨h0, h1, h2⟩ := h
  refine ⟨?_, ?_, ?_⟩
  · show 0 ≤ s.nextFree + 1
    omega
  · intro i f
    show (if i = inum ∧ f = fbn then s.nextFree else s.dbnOf i f) < s.nextFree + 1
    split
    · omega
    · have := h1 i f
      omega
  · intro i f i1 f1
    show 0 ≤ (if i = inum ∧ f = fbn then s.nextFree else s.dbnOf i f) →
      (if i = inum ∧ f = fbn then s.nextFree else s.dbnOf i f)
        = (if i1 = inum ∧ f1 = fbn then s.nextFree else s.dbnOf i1 f1) → i = i1 ∧ f = f1
    intro hn he
    have a1 := h1 i f
    have a2 := h1 i1 f1
    split_ifs at he hn with c1 c2 c2
    · exact ⟨c1.1.trans c2.1.symm, c1.2.trans c2.2.symm⟩
    · omega
    · omega
    · exact h2 i f i1 f1 hn he

theorem fetchBlock_spec {s : BFS} (h : WF s) (inum fbn : Int) (b0 : Buf) :
    FetchPost inum fbn s (fetchBlock s inum fbn b0).1 (fetchBlock s inum fbn b0).2.1
      (fetchBlock s inum fbn b0).2.2 := by
  by_cases hd : bfsFbnToDbn s inum fbn < 0
  · have hd1 : s.dbnOf inum fbn < 0 := hd
    have e : fetchBlock s inum fbn b0 =
        (bfsAllocBlock s inum fbn, bfsFbnToDbn (bfsAllocBlock s inum fbn) inum fbn,
          memset b0 0 BYTESPERBLOCK) := by
      simp only [fetchBlock, hd, if_true]
    rw [e]
    have hn : bfsFbnToDbn (bfsAllocBlock s inum fbn) inum fbn = s.nextFree := by
      simp [bfsFbnToDbn, bfsAllocBlock]
    obtain ⟨h0, h1, h2⟩ := h
    refine ⟨WF_alloc ⟨h0, h1, h2⟩ inum fbn, rfl, rfl, rfl, rfl, ?_, ?_, ?_, ?_, ?_, ?_⟩
    · show 0 ≤ bfsFbnToDbn (bfsAllocBlock s inum fbn) inum fbn
      rw [hn]; exact h0
    · intro p hp0 hp1
      show memset b0 0 BYTESPERBLOCK p
        = (bfsAllocBlock s inum fbn).disk (bfsFbnToDbn (bfsAllocBlock s inum fbn) inum fbn) p
      rw [hn]
      have : (0 : Int) ≤ p ∧ p < 512 := ⟨hp0, hp1⟩
      simp [memset, bfsAllocBlock, BYTESPERBLOCK, this]
    · intro i f hif
      show (if i = inum ∧ f = fbn then s.nextFree else s.dbnOf i f) = s.dbnOf i f
      split
      · rename_i c
        rw [c.1, c.2] at hif
        omega
      · rfl
    · intro d hdl
      show (if d = s.nextFree then (fun _ => 0) else s.disk d) = s.disk d
      have : ¬ d = s.nextFree := by omega
      rw [if_neg this]
    · intro i f hif
      show 0 ≤ (if i = inum ∧ f = fbn then s.nextFree else s.dbnOf i f) →
        i = inum ∧ f = fbn ∧ ∀ p, (bfsAllocBlock s inum fbn).disk
          (if i = inum ∧ f = fbn then s.nextFree else s.dbnOf i f) p = 0
      intro hx
      split_ifs at hx with c
      · refine ⟨c.1, c.2, ?_⟩
        intro p
        rw [if_pos c]
        simp [bfsAllocBlock]
      · omega
    · refine ⟨[Event.alloc inum fbn], rfl, ?_⟩
      intro e he
      simp at he
      exact ⟨he, hd1⟩
  · have hd1 : 0 ≤ s.dbnOf inum fbn := by
      have : ¬ s.dbnOf inum fbn < 0 := hd
      omega
    have e : fetchBlock s inum fbn b0 = (s, bfsFbnToDbn s inum fbn, bfsRead s inum fbn) := by
      simp only [fetchBlock, hd, if_false]
    rw [e]
    refine ⟨h, rfl, rfl, rfl, rfl, hd1, ?_, ?_, ?_, ?_, ?_⟩
    · intro p _ _
      rfl
    · intro i f _
      rfl
    · intro d _
      rfl
    · intro i f h1 h2
      have h3 : 0 ≤ s.dbnOf i f := h2
      omega
    · exact ⟨[], by simp, by simp⟩

theorem writePost_refl {s : BFS} (h : WF s) (inum : Int) (src : Buf) (k P : Int) :
    WritePost inum src k P 0 s s := by
  refine ⟨h, rfl, rfl, rfl, fun _ _ _ => rfl, ?_, fun _ _ _ _ _ _ _ => rfl, ?_,
    ⟨[], by simp, by simp, by simp⟩⟩
  · intro q h1 h2
    omega
  · intro i f p _ _ h1 h2 _
    omega

theorem writeLoop_spec (inum numb : Int) (src : Buf) :
    ∀ (fuel : Nat) (s : BFS) (rem off fbn dbn : Int) (blk : Buf),
      WF s → 0 ≤ rem → rem.toNat ≤ fuel → 0 ≤ off → off < 512 → 0 ≤ fbn →
      512 * fbn + off + rem ≤ 8589934592 →
      dbn = s.dbnOf inum fbn → 0 ≤ dbn → (∀ p, 0 ≤ p → p < 512 → blk p = s.disk dbn p) →
      ∃ s1, writeLoop inum numb src fuel s rem off fbn dbn blk = some s1 ∧
        WritePost inum src (numb - rem) (512 * fbn + off) rem s s1 := by
  intro fuel
  induction fuel with
  | zero =>
    intro s rem off fbn dbn blk hwf h0 hf _ _ _ _ _ _ _
    have hr : rem = 0 := by omega
    subst hr
    exact ⟨s, by simp [writeLoop], writePost_refl hwf _ _ _ _⟩
  | succ fuel ih =>
    intro s rem off fbn dbn blk hwf h0 hf ho0 ho1 hfb hb hdbn hd0 hblk
    by_cases hr : rem > 0
    · obtain ⟨n, hn⟩ : ∃ n, n =
          (if rem > BYTESPERBLOCK - off then BYTESPERBLOCK - off else rem) := ⟨_, rfl⟩
      have hn1 : 1 ≤ n ∧ n ≤ rem ∧ n ≤ 512 - off ∧ (n < rem → n = 512 - off) := by
        unfold BYTESPERBLOCK at hn
        split_ifs at hn <;> omega
      obtain ⟨hn1a, hn1b, hn1c, hn1d⟩ := hn1
      have hw : wrap32 (fbn + 1) = fbn + 1 := wrap32_eq (by omega) (by omega)
      obtain ⟨blk1, hblk1⟩ : ∃ b, b = memcpy blk off src (numb - rem) n := ⟨_, rfl⟩
      have hF := fetchBlock_spec (WF_bioWrite hwf dbn blk1) inum (fbn + 1) blk1
      obtain ⟨r, hrdef⟩ : ∃ r, r = fetchBlock (bioWrite s dbn blk1) inum (fbn + 1) blk1 :=
        ⟨_, rfl⟩
      rw [← hrdef] at hF
      obtain ⟨s1, hs1, hP⟩ := ih r.1 (rem - n) 0 (fbn + 1) r.2.1 r.2.2 hF.wf (by omega)
        (by omega) (by omega) (by omega) (by omega) (by omega) hF.dbn_eq hF.dbn_nonneg
        hF.blk_eq
      have hunf : writeLoop inum numb src (fuel + 1) s rem off fbn dbn blk =
          writeLoop inum numb src fuel r.1 (rem - n) 0 (fbn + 1) r.2.1 r.2.2 := by
        subst hrdef hblk1 hn
        simp only [writeLoop, hr, if_true, hw]
      refine ⟨s1, hunf.trans hs1, ?_⟩
      obtain ⟨w0, w1, w2⟩ := hwf
      -- the state between the block write and the next fetch
      have kA : ∀ i f, 0 ≤ s.dbnOf i f → r.1.dbnOf i f = s.dbnOf i f :=
        fun i f h => hF.keep i f h
      have dA : ∀ d, d < s.nextFree → r.1.disk d = if d = dbn then blk1 else s.disk d :=
        fun d h => hF.disk d h
      have nA : ∀ i f, s.dbnOf i f < 0 → 0 ≤ r.1.dbnOf i f →
          i = inum ∧ f = fbn + 1 ∧ ∀ p, r.1.disk (r.1.dbnOf i f) p = 0 :=
        fun i f h => hF.fresh i f h
      have hcur : r.1.dbnOf inum fbn = dbn := by
        rw [kA inum fbn (by omega)]
        exact hdbn.symm
      constructor
      · exact hP.wf
      · rw [hP.fdInum, hF.fdInum]; rfl
      · rw [hP.oftSlot, hF.oftSlot]; rfl
      · rw [hP.g_oft, hF.g_oft]; rfl
      · intro i f h
        rw [hP.keep i f (by rw [kA i f h]; exact h), kA i f h]
      · intro q hq0 hq1
        by_cases hq : q < 512 * fbn + off + n
        · have e1 : q / 512 = fbn := by omega
          have hp0 : 0 ≤ q % 512 := by omega
          have hp1 : q % 512 < 512 := by omega
          rw [e1]
          have hk := hP.keep inum fbn (by omega)
          rw [hk, hcur]
          refine ⟨hd0, ?_⟩
          have hfr := hP.frame inum fbn (q % 512) hp0 hp1 (by omega) (by omega)
          rw [hk, hcur] at hfr
          rw [hfr, dA dbn (by have := w1 inum fbn; omega), if_pos rfl, hblk1]
          have hin : off ≤ q % 512 ∧ q % 512 < off + n := by omega
          simp only [memcpy, hin, and_self, if_true]
          congr 1
          omega
        · have hd := hP.data q (by omega) (by omega)
          refine ⟨hd.1, ?_⟩
          rw [hd.2]
          congr 1
          omega
      · intro i f p hp0 hp1 hif hout
        have hB : 0 ≤ r.1.dbnOf i f := by rw [kA i f hif]; exact hif
        rw [hP.frame i f p hp0 hp1 hB (by omega), kA i f hif,
          dA _ (by have := w1 i f; omega)]
        by_cases he : s.dbnOf i f = dbn
        · rw [if_pos he, he]
          have hij := w2 i f inum fbn hif (he.trans hdbn)
          have hnin : ¬ (off ≤ p ∧ p < off + n) := by
            obtain ⟨hi, hf1⟩ := hij
            subst hi hf1
            omega
          rw [hblk1]
          simp only [memcpy, hnin, if_false]
          exact hblk p hp0 hp1
        · rw [if_neg he]
      · intro i f p hp0 hp1 hif h1 hout
        by_cases hB : 0 ≤ r.1.dbnOf i f
        · obtain ⟨hi, hf1, hz⟩ := nA i f hif hB
          rw [hP.frame i f p hp0 hp1 hB (by omega)]
          exact hz p
        · exact hP.fresh i f p hp0 hp1 (by omega) h1 (by omega)
      · obtain ⟨evB, htB, hevB⟩ := hF.trace
        obtain ⟨evP, htP, hwP, haP⟩ := hP.trace
        refine ⟨[Event.write dbn] ++ evB ++ evP, ?_, ?_, ?_⟩
        · rw [htP, htB]
          show s.trace ++ [Event.write dbn] ++ evB ++ evP = _
          simp
        · intro d hd
          simp only [List.mem_append, List.mem_singleton] at hd
          rcases hd with (hd | hd) | hd
          · refine ⟨fbn, by omega, by omega, ?_⟩
            rw [hP.keep inum fbn (by omega), hcur]
            injection hd
          · have := (hevB _ hd).1
            cases this
          · obtain ⟨f, hf0, hf1, hf2⟩ := hwP d hd
            exact ⟨f, by omega, by omega, hf2⟩
        · intro i f ha
          simp only [List.mem_append, List.mem_singleton] at ha
          rcases ha with (ha | ha) | ha
          · cases ha
          · obtain ⟨h1, h2⟩ := hevB _ ha
            injection h1 with h3 h4
            have h5 : s.dbnOf inum (fbn + 1) < 0 := h2
            subst h3 h4
            exact ⟨rfl, by omega, by omega, h5⟩
          · obtain ⟨h1, h2, h3, h4⟩ := haP i f ha
            refine ⟨h1, by omega, by omega, ?_⟩
            by_contra hc
            have := kA i f (by omega)
            omega
    · have hr0 : rem = 0 := by omega
      subst hr0
      exact ⟨s, by simp [writeLoop], writePost_refl hwf _ _ _ _⟩

theorem fsWrite_spec (s : BFS) (fd numb : Int) (buf : Buf) (hwf : WF s)
    (hn0 : 0 ≤ numb) (hn1 : numb < 2147483648)
    (hc0 : 0 ≤ bfsTell s fd) (hc1 : bfsTell s fd < 2147483648) :
    ∃ s1, WritePost (bfsFdToInum s fd) buf 0 (bfsTell s fd) numb s s1 ∧
      fsWrite s fd numb buf =
        Except.ok (setCurs s1 (bfsFindOFTE s (bfsFdToInum s fd))
          (wrap32 (bfsTell s fd + numb)), 0) := by
  obtain ⟨c, hc⟩ : ∃ c, c = bfsTell s fd := ⟨_, rfl⟩
  obtain ⟨inum, hinum⟩ : ∃ i, i = bfsFdToInum s fd := ⟨_, rfl⟩
  rw [← hc] at hc0 hc1
  rw [← hc, ← hinum]
  obtain ⟨whole, hwhole⟩ : ∃ w, w = memcpy zeroBuf 0 buf 0 numb := ⟨_, rfl⟩
  have hF := fetchBlock_spec hwf inum (c / 512) zeroBuf
  obtain ⟨r, hrdef⟩ : ∃ r, r = fetchBlock s inum (c / 512) zeroBuf := ⟨_, rfl⟩
  rw [← hrdef] at hF
  obtain ⟨s2, hs2, hP⟩ := writeLoop_spec inum numb whole numb.toNat r.1 numb (c % 512)
    (c / 512) r.2.1 r.2.2 hF.wf hn0 (le_refl _) (by omega) (by omega) (by omega) (by omega)
    hF.dbn_eq hF.dbn_nonneg hF.blk_eq
  have hPc : 512 * (c / 512) + c % 512 = c := by omega
  rw [hPc] at hP
  obtain ⟨w0, w1, w2⟩ := hwf
  have e1 : s2.fdInum = s.fdInum := by rw [hP.fdInum, hF.fdInum]
  have e2 : s2.oftSlot = s.oftSlot := by rw [hP.oftSlot, hF.oftSlot]
  have e3 : s2.g_oft = s.g_oft := by rw [hP.g_oft, hF.g_oft]
  refine ⟨s2, ?_, ?_⟩
  · constructor
    · exact hP.wf
    · exact e1
    · exact e2
    · exact e3
    · intro i f h
      rw [hP.keep i f (by rw [hF.keep i f h]; exact h), hF.keep i f h]
    · intro q hq0 hq1
      have hd := hP.data q hq0 hq1
      refine ⟨hd.1, ?_⟩
      rw [hd.2, hwhole]
      have hin : (0 : Int) ≤ numb - numb + (q - c) ∧ numb - numb + (q - c) < 0 + numb := by
        omega
      simp only [memcpy, hin, and_self, if_true]
      congr 1
      omega
    · intro i f p hp0 hp1 hif hout
      have hB : 0 ≤ r.1.dbnOf i f := by rw [hF.keep i f hif]; exact hif
      rw [hP.frame i f p hp0 hp1 hB hout, hF.keep i f hif,
        hF.disk _ (by have := w1 i f; omega)]
    · intro i f p hp0 hp1 hif h1 hout
      by_cases hB : 0 ≤ r.1.dbnOf i f
      · obtain ⟨_, _, hz⟩ := hF.fresh i f hif hB
        rw [hP.frame i f p hp0 hp1 hB hout]
        exact hz p
      · exact hP.fresh i f p hp0 hp1 (by omega) h1 hout
    · obtain ⟨evB, htB, hevB⟩ := hF.trace
      obtain ⟨evP, htP, hwP, haP⟩ := hP.trace
      refine ⟨evB ++ evP, ?_, ?_, ?_⟩
      · rw [htP, htB]
        simp
      · intro d hd
        simp only [List.mem_append] at hd
        rcases hd with hd | hd
        · have := (hevB _ hd).1
          cases this
        · exact hwP d hd
      · intro i f ha
        simp only [List.mem_append] at ha
        rcases ha with ha | ha
        · obtain ⟨h1, h2⟩ := hevB _ ha
          injection h1 with h3 h4
          subst h3 h4
          exact ⟨rfl, by omega, by omega, h2⟩
        · obtain ⟨h1, h2, h3, h4⟩ := haP i f ha
          refine ⟨h1, h2, h3, ?_⟩
          by_contra hc2
          have := hF.keep i f (by omega)
          omega
  · have ht : bfsTell s2 fd = c := by
      rw [hc]
      simp only [bfsTell, bfsFindOFTE, bfsFdToInum, e1, e2, e3]
    have hsk := fsSeek_cur s2 fd numb hn0
    rw [ht] at hsk
    have hslot : bfsFindOFTE s2 (bfsFdToInum s2 fd) = bfsFindOFTE s inum := by
      rw [hinum]
      simp only [bfsFindOFTE, bfsFdToInum, e1, e2]
    rw [hslot] at hsk
    have hc0b : 0 ≤ bfsTell s fd := by rw [← hc]; exact hc0
    have htr : bfsTell (fetchBlock s (bfsFdToInum s fd) (bfsTell s fd / 512) zeroBuf).1 fd
        = bfsTell s fd := by
      rw [← hc, ← hinum, ← hrdef, hc]
      simp only [bfsTell, bfsFindOFTE, bfsFdToInum, hF.fdInum, hF.oftSlot, hF.g_oft]
    have hl : writeLoop (bfsFdToInum s fd) numb (memcpy zeroBuf 0 buf 0 numb) numb.toNat
        (fetchBlock s (bfsFdToInum s fd) (bfsTell s fd / 512) zeroBuf).1 numb
        (bfsTell s fd % 512) (bfsTell s fd / 512)
        (fetchBlock s (bfsFdToInum s fd) (bfsTell s fd / 512) zeroBuf).2.1
        (fetchBlock s (bfsFdToInum s fd) (bfsTell s fd / 512) zeroBuf).2.2 = some s2 := by
      rw [← hc, ← hinum, ← hwhole, ← hrdef]
      exact hs2
    simp only [fsWrite, fsTell, tdiv_block hc0b, htr, tmod_block hc0b, hl, hsk]

theorem WF_emptyFS : WF emptyFS := by
  refine ⟨by decide, ?_, ?_⟩
  · intro i f
    show (-1 : Int) < 0
    decide
  · intro i f i1 f1 h
    have h1 : (0 : Int) ≤ -1 := h
    omega

theorem Fresh_emptyFS (fd : Int) : Fresh emptyFS fd := by
  refine ⟨rfl, ?_⟩
  intro f
  show (-1 : Int) < 0
  decide

theorem WF_setCurs {s : BFS} (h : WF s) (k : Nat) (c : Int) : WF (setCurs s k c) := h

theorem WF_helloFS : WF helloFS := by
  obtain ⟨sw, hP, he⟩ := fsWrite_spec emptyFS 3 10 helloWorld WF_emptyFS (by decide)
    (by decide) (by decide) (by decide)
  have e : helloFS = setCurs sw (bfsFindOFTE emptyFS (bfsFdToInum emptyFS 3))
      (wrap32 (bfsTell emptyFS 3 + 10)) := by
    unfold helloFS
    rw [he]
    rfl
  rw [e]
  exact WF_setCurs hP.wf _ _

theorem WF_helloAt5 : WF helloAt5 := by
  have e : helloAt5 = setCurs helloFS (bfsFindOFTE helloFS (bfsFdToInum helloFS 3)) 5 := by
    unfold helloAt5
    rw [fsSeek_set helloFS 3 5 (by decide)]
    rfl
  rw [e]
  exact WF_setCurs WF_helloFS _ _

/-- C1: `fsWrite` stores the caller's bytes at the cursor. For a consistent
state, a cursor `c ≥ 0`, a count `≥ 1` (both `i32` values) and any source
buffer, `fsWrite` returns 0 and afterwards, for every `i` in `[0, count)`,
logical block `(c + i) div B` is allocated and the block stored for it holds
`buf[i]` at offset `(c + i) mod B`, however many block boundaries the range
crosses. -/
theorem fsWrite_stores_bytes (s : BFS) (fd count : Int) (buf : Buf) (hwf : WF s)
    (hc0 : 0 ≤ bfsTell s fd) (hc1 : bfsTell s fd < 2147483648)
    (hn0 : 1 ≤ count) (hn1 : count < 2147483648) :
    ∃ s1, fsWrite s fd count buf = Except.ok (s1, 0) ∧
      ∀ i, 0 ≤ i → i < count →
        0 ≤ bfsFbnToDbn s1 (bfsFdToInum s fd) ((bfsTell s fd + i) / BYTESPERBLOCK) ∧
        bfsRead s1 (bfsFdToInum s fd) ((bfsTell s fd + i) / BYTESPERBLOCK)
          ((bfsTell s fd + i) % BYTESPERBLOCK) = buf i := by
  obtain ⟨s2, hP, he⟩ := fsWrite_spec s fd count buf hwf (by omega) hn1 hc0 hc1
  refine ⟨_, he, ?_⟩
  intro i hi0 hi1
  have hd := hP.data (bfsTell s fd + i) (by omega) (by omega)
  have e : (0 : Int) + (bfsTell s fd + i - bfsTell s fd) = i := by omega
  rw [e] at hd
  exact hd

/-- Witness of C1: the ten bytes HELLOWORLD written at cursor 5 of the file that
already holds HELLOWORLD. -/
theorem fsWrite_stores_bytes_witness :
    WF helloAt5 ∧ bfsTell helloAt5 3 = 5 ∧
    ∃ s1, fsWrite helloAt5 3 10 helloWorld = Except.ok (s1, 0) ∧
      ∀ i, 0 ≤ i → i < 10 →
        0 ≤ bfsFbnToDbn s1 (bfsFdToInum helloAt5 3) ((bfsTell helloAt5 3 + i) / BYTESPERBLOCK) ∧
        bfsRead s1 (bfsFdToInum helloAt5 3) ((bfsTell helloAt5 3 + i) / BYTESPERBLOCK)
          ((bfsTell helloAt5 3 + i) % BYTESPERBLOCK) = helloWorld i :=
  ⟨WF_helloAt5, by decide,
    fsWrite_stores_bytes helloAt5 3 10 helloWorld WF_helloAt5 (by decide) (by decide)
      (by decide) (by decide)⟩

/-- C2: `fsWrite` preserves every byte outside the written span. After a write
of `count` bytes at cursor `c`, a byte at offset `p` of a touched block `f`
(a block holding a position of `[c, c + count)`) whose stream position
`B * f + p` lies outside `[c, c + count)` keeps its previous value if the block
was allocated before the call and is zero if it was not; and every block write
(`bioWrite`) of the call goes to the block of an index in
`[c div B, (c + count - 1) div B]`. -/
theorem fsWrite_preserves_outside (s : BFS) (fd count : Int) (buf : Buf) (hwf : WF s)
    (hc0 : 0 ≤ bfsTell s fd) (hc1 : bfsTell s fd < 2147483648)
    (hn0 : 0 ≤ count) (hn1 : count < 2147483648) :
    ∃ s1, fsWrite s fd count buf = Except.ok (s1, 0) ∧
      (∀ f p, 0 ≤ p → p < BYTESPERBLOCK →
        (∃ q, bfsTell s fd ≤ q ∧ q < bfsTell s fd + count ∧ q / BYTESPERBLOCK = f) →
        ¬ (bfsTell s fd ≤ BYTESPERBLOCK * f + p ∧
            BYTESPERBLOCK * f + p < bfsTell s fd + count) →
        (0 ≤ bfsFbnToDbn s (bfsFdToInum s fd) f →
          bfsRead s1 (bfsFdToInum s fd) f p = bfsRead s (bfsFdToInum s fd) f p) ∧
        (bfsFbnToDbn s (bfsFdToInum s fd) f < 0 →
          bfsRead s1 (bfsFdToInum s fd) f p = 0)) ∧
      ∃ evs, s1.trace = s.trace ++ evs ∧
        ∀ d, Event.write d ∈ evs →
          ∃ f, bfsTell s fd / BYTESPERBLOCK ≤ f ∧
            f ≤ (bfsTell s fd + count - 1) / BYTESPERBLOCK ∧
            d = bfsFbnToDbn s1 (bfsFdToInum s fd) f := by
  obtain ⟨s2, hP, he⟩ := fsWrite_spec s fd count buf hwf hn0 hn1 hc0 hc1
  refine ⟨_, he, ?_, ?_⟩
  · intro f p hp0 hp1 hq hout
    unfold BYTESPERBLOCK at hp1 hq hout
    obtain ⟨q, hq0, hq1, hq2⟩ := hq
    have hal : 0 ≤ s2.dbnOf (bfsFdToInum s fd) f := by
      have := (hP.data q hq0 hq1).1
      rw [hq2] at this
      exact this
    constructor
    · intro h
      exact hP.frame _ f p hp0 hp1 h (fun hx => hout hx.2)
    · intro h
      exact hP.fresh _ f p hp0 hp1 h hal (fun hx => hout hx.2)
  · obtain ⟨evs, ht, hw, _⟩ := hP.trace
    exact ⟨evs, ht, hw⟩

/-- Witness of C2: the ten bytes HELLOWORLD written at cursor 5 of the file that
already holds HELLOWORLD in its allocated block 0. -/
theorem fsWrite_preserves_outside_witness :
    WF helloAt5 ∧ bfsTell helloAt5 3 = 5 ∧
    0 ≤ bfsFbnToDbn helloAt5 (bfsFdToInum helloAt5 3) 0 ∧
    ∃ s1, fsWrite helloAt5 3 10 helloWorld = Except.ok (s1, 0) ∧
      (∀ f p, 0 ≤ p → p < BYTESPERBLOCK →
        (∃ q, bfsTell helloAt5 3 ≤ q ∧ q < bfsTell helloAt5 3 + 10 ∧ q / BYTESPERBLOCK = f) →
        ¬ (bfsTell helloAt5 3 ≤ BYTESPERBLOCK * f + p ∧
            BYTESPERBLOCK * f + p < bfsTell helloAt5 3 + 10) →
        (0 ≤ bfsFbnToDbn helloAt5 (bfsFdToInum helloAt5 3) f →
          bfsRead s1 (bfsFdToInum helloAt5 3) f p = bfsRead helloAt5 (bfsFdToInum helloAt5 3) f p) ∧
        (bfsFbnToDbn helloAt5 (bfsFdToInum helloAt5 3) f < 0 →
          bfsRead s1 (bfsFdToInum helloAt5 3) f p = 0)) ∧
      ∃ evs, s1.trace = helloAt5.trace ++ evs ∧
        ∀ d, Event.write d ∈ evs →
          ∃ f, bfsTell helloAt5 3 / BYTESPERBLOCK ≤ f ∧
            f ≤ (bfsTell helloAt5 3 + 10 - 1) / BYTESPERBLOCK ∧
            d = bfsFbnToDbn s1 (bfsFdToInum helloAt5 3) f :=
  ⟨WF_helloAt5, by decide, by decide,
    fsWrite_preserves_outside helloAt5 3 10 helloWorld WF_helloAt5 (by decide)
      (by decide) (by decide) (by decide)⟩

theorem write_rewind (s : BFS) (fd n : Int) (data : Buf) (hwf : WF s)
    (hc : bfsTell s fd = 0) (h0 : 0 ≤ n) (h1 : n < 2147483648) :
    ∃ sw s1 s2, WritePost (bfsFdToInum s fd) data 0 0 n s sw ∧
      fsWrite s fd n data = Except.ok (s1, 0) ∧ fsTell s1 fd = n ∧
      fsSeek s1 fd 0 SEEK_SET = Except.ok (s2, 0) ∧ bfsTell s2 fd = 0 ∧
      bfsFdToInum s2 fd = bfsFdToInum s fd ∧ s2.dbnOf = sw.dbnOf ∧ s2.disk = sw.disk := by
  obtain ⟨sw, hP, he⟩ := fsWrite_spec s fd n data hwf h0 h1 (by omega) (by omega)
  rw [hc] at hP he
  have hw : wrap32 (0 + n) = n := by
    rw [zero_add]
    exact wrap32_eq (by omega) (by omega)
  rw [hw] at he
  have r1 : ∀ fd1, bfsFdToInum sw fd1 = bfsFdToInum s fd1 := by
    intro fd1
    simp only [bfsFdToInum, hP.fdInum]
  have r2 : ∀ i, bfsFindOFTE sw i = bfsFindOFTE s i := by
    intro i
    simp only [bfsFindOFTE, hP.oftSlot]
  obtain ⟨k, hk⟩ : ∃ k, k = bfsFindOFTE s (bfsFdToInum s fd) := ⟨_, rfl⟩
  rw [← hk] at he
  have hk1 : bfsFindOFTE (setCurs sw k n) (bfsFdToInum (setCurs sw k n) fd) = k := by
    show bfsFindOFTE sw (bfsFdToInum sw fd) = k
    rw [r1, r2, hk]
  refine ⟨sw, setCurs sw k n, setCurs (setCurs sw k n) k 0, hP, he, ?_, ?_, ?_, ?_, rfl, rfl⟩
  · show bfsTell (setCurs sw k n) fd = n
    have := bfsTell_setCurs sw fd n
    rw [r1, r2, ← hk] at this
    exact this
  · have := fsSeek_set (setCurs sw k n) fd 0 (le_refl _)
    rw [hk1] at this
    exact this
  · have := bfsTell_setCurs (setCurs sw k n) fd 0
    rw [hk1] at this
    exact this
  · show bfsFdToInum sw fd = bfsFdToInum s fd
    exact r1 fd

/-- C4: single-block round trip. On a freshly created file (cursor 0), for
every `n` with `0 ≤ n ≤ B` and every `n` bytes (non-zero or not), `fsWrite` of
the bytes returns 0 and leaves the cursor at `n`; `fsSeek(fd, 0, SEEK_SET)`
returns 0; and `fsRead(fd, n)` then returns `n`, puts exactly the bytes written
in the first `n` places of the caller's buffer, and leaves the cursor at `n`. -/
theorem roundtrip_single_block (s : BFS) (fd n : Int) (data buf : Buf) (hwf : WF s)
    (hfresh : Fresh s fd) (h0 : 0 ≤ n) (h1 : n ≤ BYTESPERBLOCK) :
    ∃ s1 s2 s3 out,
      fsWrite s fd n data = Except.ok (s1, 0) ∧ fsTell s1 fd = n ∧
      fsSeek s1 fd 0 SEEK_SET = Except.ok (s2, 0) ∧
      fsRead s2 fd n buf = Except.ok (s3, n, out) ∧
      (∀ i, 0 ≤ i → i < n → out i = data i) ∧ fsTell s3 fd = n := by
  unfold BYTESPERBLOCK at h1
  obtain ⟨sw, s1, s2, hP, hw, ht1, hsk, ht2, hin, hmap, hdisk⟩ :=
    write_rewind s fd n data hwf hfresh.1 h0 (by omega)
  have hr := fsRead_small s2 fd n buf h0 h1
  rw [ht2, hin] at hr
  have hw32 : wrap32 (0 + n) = n := by
    rw [zero_add]
    exact wrap32_eq (by omega) (by omega)
  rw [hw32] at hr
  refine ⟨s1, s2, _, _, hw, ht1, hsk, hr, ?_, ?_⟩
  · intro i hi0 hi1
    have hd := (hP.data i hi0 (by omega)).2
    have e1 : i / 512 = 0 := by omega
    have e2 : i % 512 = i := by omega
    have e3 : (0 : Int) + (i - 0) = i := by omega
    rw [e1, e2, e3] at hd
    have hin2 : (0 : Int) ≤ i ∧ i < 0 + n := by omega
    simp only [memcpy, hin2, and_self, if_true]
    have e4 : (0 : Int) + (i - 0) = i := by omega
    rw [e4, ← hd]
    show s2.disk (s2.dbnOf (bfsFdToInum s fd) (Int.tdiv 0 BYTESPERBLOCK)) i = _
    rw [hmap, hdisk]
    rfl
  · have := bfsTell_setCurs s2 fd n
    rw [hin] at this
    exact this

/-- Witness of C4: HELLOWORLD written to and read back from a fresh file. -/
theorem roundtrip_single_block_witness :
    WF emptyFS ∧ Fresh emptyFS 3 ∧
    ∃ s1 s2 s3 out,
      fsWrite emptyFS 3 10 helloWorld = Except.ok (s1, 0) ∧ fsTell s1 3 = 10 ∧
      fsSeek s1 3 0 SEEK_SET = Except.ok (s2, 0) ∧
      fsRead s2 3 10 zeroBuf = Except.ok (s3, 10, out) ∧
      (∀ i, 0 ≤ i → i < 10 → out i = helloWorld i) ∧ fsTell s3 3 = 10 :=
  ⟨WF_emptyFS, Fresh_emptyFS 3,
    roundtrip_single_block emptyFS 3 10 helloWorld zeroBuf WF_emptyFS (Fresh_emptyFS 3)
      (by decide) (by decide)⟩

/-- C5: multi-block round trip. On a freshly created file (cursor 0), for every
`k` with `0 < k < B` and every `B + k` bytes, `fsWrite` of the bytes returns 0,
`fsSeek(fd, 0, SEEK_SET)` returns 0, and `fsRead(fd, B + k)` then returns and
leaves exactly the bytes written at places `0 .. B + k - 1` of the caller's
buffer. -/
theorem roundtrip_multi_block (s : BFS) (fd k : Int) (data buf : Buf) (hwf : WF s)
    (hfresh : Fresh s fd) (h0 : 0 < k) (h1 : k < BYTESPERBLOCK) :
    ∃ s1 s2 s3 r out,
      fsWrite s fd (BYTESPERBLOCK + k) data = Except.ok (s1, 0) ∧
      fsSeek s1 fd 0 SEEK_SET = Except.ok (s2, 0) ∧
      fsRead s2 fd (BYTESPERBLOCK + k) buf = Except.ok (s3, r, out) ∧
      ∀ i, 0 ≤ i → i < BYTESPERBLOCK + k → out i = data i := by
  unfold BYTESPERBLOCK at h1
  show ∃ s1 s2 s3 r out,
      fsWrite s fd (512 + k) data = Except.ok (s1, 0) ∧
      fsSeek s1 fd 0 SEEK_SET = Except.ok (s2, 0) ∧
      fsRead s2 fd (512 + k) buf = Except.ok (s3, r, out) ∧
      ∀ i, 0 ≤ i → i < 512 + k → out i = data i
  obtain ⟨sw, s1, s2, hP, hw, ht1, hsk, ht2, hin, hmap, hdisk⟩ :=
    write_rewind s fd (512 + k) data hwf hfresh.1 (by omega) (by omega)
  obtain ⟨whole, hwh, hr⟩ := fsRead_big s2 fd (512 + k) buf (by omega) (by omega)
    (by omega) (by omega)
  refine ⟨s1, s2, _, _, _, hw, hsk, hr, ?_⟩
  intro i hi0 hi1
  have hin2 : (0 : Int) ≤ i ∧ i < 0 + (512 + k) := by omega
  simp only [memcpy, hin2, and_self, if_true]
  have e4 : (0 : Int) + (i - 0) = i := by omega
  rw [e4, hwh i hi0 hi1, ht2, hin]
  have hd := (hP.data i hi0 (by omega)).2
  rw [e4] at hd
  rw [← hd]
  show s2.disk (s2.dbnOf (bfsFdToInum s fd) (0 / 512 + i / 512)) (i % 512) = _
  rw [hmap, hdisk]
  have e5 : (0 : Int) / 512 + i / 512 = i / 512 := by omega
  rw [e5]

/-- Witness of C5: `B + 1` bytes written to and read back from a fresh file. -/
theorem roundtrip_multi_block_witness :
    WF emptyFS ∧ Fresh emptyFS 3 ∧
    ∃ s1 s2 s3 r out,
      fsWrite emptyFS 3 (BYTESPERBLOCK + 1) helloWorld = Except.ok (s1, 0) ∧
      fsSeek s1 3 0 SEEK_SET = Except.ok (s2, 0) ∧
      fsRead s2 3 (BYTESPERBLOCK + 1) zeroBuf = Except.ok (s3, r, out) ∧
      ∀ i, 0 ≤ i → i < BYTESPERBLOCK + 1 → out i = helloWorld i :=
  ⟨WF_emptyFS, Fresh_emptyFS 3,
    roundtrip_multi_block emptyFS 3 1 helloWorld zeroBuf WF_emptyFS (Fresh_emptyFS 3)
      (by decide) (by decide)⟩

/-- C3 (the code at the failing input): with HELLOWORLD in the file and the
cursor at 5, `fsRead(fd, 5)` returns 5 and puts HELLO, the bytes at stream
positions 0..4, in the caller's buffer, while the file's bytes at positions
5..9 are WORLD. -/
theorem fsRead_unaligned_cursor :
    fsTell helloAt5 3 = 5 ∧ readRet (fsRead helloAt5 3 5 zeroBuf) = some 5 ∧
    (readBuf (fsRead helloAt5 3 5 zeroBuf)).map (fun b => [b 0, b 1, b 2, b 3, b 4])
      = some [72, 69, 76, 76, 79] ∧
    [fileByte helloAt5 3 5, fileByte helloAt5 3 6, fileByte helloAt5 3 7,
      fileByte helloAt5 3 8, fileByte helloAt5 3 9] = [87, 79, 82, 76, 68] := by
  decide

set_option maxRecDepth 100000 in
/-- C6 (the code at the failing input): after 522 bytes of value 1 are written
to a fresh file and the cursor is set back to 0, `fsRead(fd, 522)` returns 20,
not 522. -/
theorem fsRead_trims_past_block :
    (∀ i : Int, ones i ≠ 0) ∧ fsTell onesFS 3 = 0 ∧
    readRet (fsRead onesFS 3 522 zeroBuf) = some 20 := by
  refine ⟨fun _ => ?_, by decide, by decide⟩
  show (1 : Int) ≠ 0
  decide

/-- C8 (the code at the failing input): after HELLOWORLD is written to a fresh
file and `fsSeek(fd, 0, SEEK_END)` has put the cursor at `fsSize(fd)`,
`fsRead(fd, 1)` returns 1, not 0. -/
theorem fsRead_at_end_of_file :
    fsTell helloEndFS 3 = fsSize helloEndFS 3 ∧
    readRet (fsRead helloEndFS 3 1 zeroBuf) = some 1 := by
  decide

/-- C7, counterexample: one byte of value 0 written to a fresh file, the cursor
set back to 0: `fsRead(fd, 1)` returns 1, which is not smaller than 1. -/
theorem fsRead_single_zero_byte :
    zeroBuf 0 = 0 ∧ readRet (fsRead zeroByteFS 3 1 zeroBuf) = some 1 := by
  decide

/-- C9, counterexample: with the cursor at 2147483647, `fsRead(fd, 1)` returns
1 and leaves the cursor at -2147483648, not at 2147483647 + 1. -/
theorem fsRead_cursor_overflow :
    fsTell maxCursFS 3 = 2147483647 ∧ readRet (fsRead maxCursFS 3 1 zeroBuf) = some 1 ∧
    fsTell (stateOf (fsRead maxCursFS 3 1 zeroBuf)) 3 = -2147483648 := by
  decide

/-- C10, counterexample: with the cursor at 2147483647, `fsWrite(fd, 1, buf)`
returns 0 and leaves the cursor at -2147483648, not at 2147483647 + 1. -/
theorem fsWrite_cursor_overflow :
    fsTell maxCursFS 3 = 2147483647 ∧ retOf (fsWrite maxCursFS 3 1 helloWorld) = some 0 ∧
    fsTell (stateOf (fsWrite maxCursFS 3 1 helloWorld)) 3 = -2147483648 := by
  decide

/-- C7, amended: on a freshly created file, for every `m` with `B < m` (an
`i32`) and every `m` bytes whose last byte is zero, writing them at cursor 0,
seeking back to 0 and calling `fsRead(fd, m)` returns a length strictly smaller
than `m`. -/
theorem fsRead_underreports_trailing_zero (s : BFS) (fd m : Int) (data buf : Buf)
    (hwf : WF s) (hfresh : Fresh s fd) (h0 : BYTESPERBLOCK < m) (h1 : m < 2147483648)
    (hz : data (m - 1) = 0) :
    ∃ s1 s2 s3 r out,
      fsWrite s fd m data = Except.ok (s1, 0) ∧
      fsSeek s1 fd 0 SEEK_SET = Except.ok (s2, 0) ∧
      fsRead s2 fd m buf = Except.ok (s3, r, out) ∧ r < m := by
  unfold BYTESPERBLOCK at h0
  obtain ⟨sw, s1, s2, hP, hw, ht1, hsk, ht2, hin, hmap, hdisk⟩ :=
    write_rewind s fd m data hwf hfresh.1 (by omega) h1
  obtain ⟨whole, hwh, hr⟩ := fsRead_big s2 fd m buf h0 h1 (by omega) (by omega)
  refine ⟨s1, s2, _, _, _, hw, hsk, hr, ?_⟩
  have hlast : bfsRead s2 (bfsFdToInum s2 fd) (bfsTell s2 fd / 512 + (m + 511) / 512 - 1)
      ((511 : Nat) : Int) = 0 := by
    rw [ht2, hin]
    have ef : (0 : Int) / 512 + (m + 511) / 512 - 1 = (m - 1) / 512 := by omega
    rw [ef]
    show s2.disk (s2.dbnOf (bfsFdToInum s fd) ((m - 1) / 512)) 511 = 0
    rw [hmap, hdisk]
    have hd := hP.data (m - 1) (by omega) (by omega)
    by_cases hm : m % 512 = 0
    · have e1 : (m - 1) % 512 = 511 := by omega
      have e2 : (0 : Int) + (m - 1 - 0) = m - 1 := by omega
      rw [e1, e2, hz] at hd
      exact hd.2
    · exact hP.fresh _ ((m - 1) / 512) 511 (by omega) (by omega) (hfresh.2 _) hd.1
        (by omega)
  have hpos := trailingZeros_pos hlast
  have e512 : (511 + 1 : Nat) = 512 := rfl
  rw [e512] at hpos
  omega

/-- Witness of C7, amended: 513 zero bytes written to a fresh file. -/
theorem fsRead_underreports_trailing_zero_witness :
    WF emptyFS ∧ Fresh emptyFS 3 ∧ zeroBuf (513 - 1) = 0 ∧
    ∃ s1 s2 s3 r out,
      fsWrite emptyFS 3 513 zeroBuf = Except.ok (s1, 0) ∧
      fsSeek s1 3 0 SEEK_SET = Except.ok (s2, 0) ∧
      fsRead s2 3 513 zeroBuf = Except.ok (s3, r, out) ∧ r < 513 :=
  ⟨WF_emptyFS, Fresh_emptyFS 3, rfl,
    fsRead_underreports_trailing_zero emptyFS 3 513 zeroBuf zeroBuf WF_emptyFS
      (Fresh_emptyFS 3) (by decide) (by decide) rfl⟩

/-- C9, amended: for a cursor `c ≥ 0` and a count `≥ 0` (both `i32` values),
`fsRead` returns a value `r` with `0 ≤ r ≤ count`, and the cursor after the call
is `c + r` whenever `c + r` does not exceed 2147483647, the largest `i32`. -/
theorem fsRead_returns_and_advances (s : BFS) (fd count : Int) (buf : Buf)
    (hc0 : 0 ≤ bfsTell s fd) (hc1 : bfsTell s fd < 2147483648)
    (hn0 : 0 ≤ count) (hn1 : count < 2147483648) :
    ∃ s1 r out, fsRead s fd count buf = Except.ok (s1, r, out) ∧ 0 ≤ r ∧ r ≤ count ∧
      (bfsTell s fd + r ≤ 2147483647 → fsTell s1 fd = bfsTell s fd + r) := by
  by_cases hbig : 512 < count
  · obtain ⟨whole, _, hr⟩ := fsRead_big s fd count buf hbig hn1 hc0 hc1
    have hz := trailingZeros_le (bfsRead s (bfsFdToInum s fd)
      (bfsTell s fd / 512 + (count + 511) / 512 - 1)) 512
    refine ⟨_, _, _, hr, by omega, by omega, ?_⟩
    intro hb
    show bfsTell _ fd = _
    rw [bfsTell_setCurs]
    exact wrap32_eq (by omega) (by omega)
  · have hr := fsRead_small s fd count buf hn0 (by omega)
    refine ⟨_, _, _, hr, hn0, le_refl _, ?_⟩
    intro hb
    show bfsTell _ fd = _
    rw [bfsTell_setCurs]
    exact wrap32_eq (by omega) (by omega)

/-- Witness of C9, amended: reading 10 bytes of the HELLOWORLD file from
cursor 5. -/
theorem fsRead_returns_and_advances_witness :
    0 ≤ bfsTell helloAt5 3 ∧
    ∃ s1 r out, fsRead helloAt5 3 10 zeroBuf = Except.ok (s1, r, out) ∧ 0 ≤ r ∧ r ≤ 10 ∧
      (bfsTell helloAt5 3 + r ≤ 2147483647 → fsTell s1 3 = bfsTell helloAt5 3 + r) :=
  ⟨by decide, fsRead_returns_and_advances helloAt5 3 10 zeroBuf (by decide) (by decide)
    (by decide) (by decide)⟩

/-- C10, amended: for a consistent state, a cursor `c ≥ 0` and a count `≥ 0`
(both `i32` values) and any source buffer, `fsWrite` returns 0, and the cursor
after the call is `c + count` whenever `c + count` does not exceed 2147483647,
the largest `i32`; the data written plays no part. -/
theorem fsWrite_returns_and_advances (s : BFS) (fd count : Int) (buf : Buf) (hwf : WF s)
    (hc0 : 0 ≤ bfsTell s fd) (hc1 : bfsTell s fd < 2147483648)
    (hn0 : 0 ≤ count) (hn1 : count < 2147483648) :
    ∃ s1, fsWrite s fd count buf = Except.ok (s1, 0) ∧
      (bfsTell s fd + count ≤ 2147483647 → fsTell s1 fd = bfsTell s fd + count) := by
  obtain ⟨sw, hP, he⟩ := fsWrite_spec s fd count buf hwf hn0 hn1 hc0 hc1
  refine ⟨_, he, ?_⟩
  intro hb
  have := bfsTell_setCurs sw fd (wrap32 (bfsTell s fd + count))
  simp only [bfsFindOFTE, bfsFdToInum, hP.fdInum, hP.oftSlot] at this
  show bfsTell _ fd = _
  simp only [bfsFindOFTE, bfsFdToInum]
  rw [this]
  exact wrap32_eq (by omega) (by omega)

/-- Witness of C10, amended: HELLOWORLD written at cursor 5 of the file that
already holds HELLOWORLD. -/
theorem fsWrite_returns_and_advances_witness :
    WF helloAt5 ∧ bfsTell helloAt5 3 = 5 ∧
    ∃ s1, fsWrite helloAt5 3 10 helloWorld = Except.ok (s1, 0) ∧
      (bfsTell helloAt5 3 + 10 ≤ 2147483647 → fsTell s1 3 = bfsTell helloAt5 3 + 10) :=
  ⟨WF_helloAt5, by decide,
    fsWrite_returns_and_advances helloAt5 3 10 helloWorld WF_helloAt5 (by decide)
      (by decide) (by decide) (by decide)⟩

theorem trailingZeros_exact (b : Buf) (j : Nat) (hj : b ((j : Int) - 1) ≠ 0) :
    ∀ k : Nat, j ≤ k → (∀ p : Int, (j : Int) ≤ p → p < (k : Int) → b p = 0) →
      trailingZeros b k = k - j := by
  intro k
  induction k with
  | zero =>
    intro _ _
    simp [trailingZeros]
  | succ k ih =>
    intro hjk hz
    by_cases hk : j ≤ k
    · have h0 : b (k : Int) = 0 := hz k (by omega) (by omega)
      have := ih hk (fun p hp0 hp1 => hz p hp0 (by omega))
      simp only [trailingZeros, h0, if_true, this]
      omega
    · have hjk1 : j = k + 1 := by omega
      subst hjk1
      have e : ((k + 1 : Nat) : Int) - 1 = (k : Int) := by omega
      rw [e] at hj
      simp [trailingZeros, hj]

/-- What `fsRead` delivers, whatever the cursor: it returns, and place `i` of
the caller's buffer, for `i` in `[0, count)`, receives the byte at offset
`i mod B` of logical block `c div B + i div B`; the offset `c mod B` of the
cursor inside its block plays no part. -/
theorem fsRead_delivers (s : BFS) (fd count : Int) (buf : Buf)
    (hc0 : 0 ≤ bfsTell s fd) (hc1 : bfsTell s fd < 2147483648)
    (hn0 : 0 ≤ count) (hn1 : count < 2147483648) :
    ∃ s1 r out, fsRead s fd count buf = Except.ok (s1, r, out) ∧
      ∀ i, 0 ≤ i → i < count →
        out i = bfsRead s (bfsFdToInum s fd) (bfsTell s fd / 512 + i / 512) (i % 512) := by
  by_cases hbig : 512 < count
  · obtain ⟨whole, hwh, hr⟩ := fsRead_big s fd count buf hbig hn1 hc0 hc1
    refine ⟨_, _, _, hr, ?_⟩
    intro i hi0 hi1
    have hin : (0 : Int) ≤ i ∧ i < 0 + count := by omega
    simp only [memcpy, hin, and_self, if_true]
    have e : (0 : Int) + (i - 0) = i := by omega
    rw [e, hwh i hi0 hi1]
  · have hr := fsRead_small s fd count buf hn0 (by omega)
    refine ⟨_, _, _, hr, ?_⟩
    intro i hi0 hi1
    have hin : (0 : Int) ≤ i ∧ i < 0 + count := by omega
    simp only [memcpy, hin, and_self, if_true, tdiv_block hc0]
    apply bfsRead_congr <;> omega

/-- A read of at least one byte never returns 0: the single-block branch
returns the count, the other branch takes at most `B` off a count above `B`. -/
theorem fsRead_pos (s : BFS) (fd count : Int) (buf : Buf)
    (hc0 : 0 ≤ bfsTell s fd) (hc1 : bfsTell s fd < 2147483648)
    (hn0 : 1 ≤ count) (hn1 : count < 2147483648) :
    ∃ s1 r out, fsRead s fd count buf = Except.ok (s1, r, out) ∧ 1 ≤ r := by
  by_cases hbig : 512 < count
  · obtain ⟨whole, _, hr⟩ := fsRead_big s fd count buf hbig hn1 hc0 hc1
    have hz := trailingZeros_le (bfsRead s (bfsFdToInum s fd)
      (bfsTell s fd / 512 + (count + 511) / 512 - 1)) 512
    exact ⟨_, _, _, hr, by omega⟩
  · exact ⟨_, _, _, fsRead_small s fd count buf (by omega) (by omega), hn0⟩

/-- The length reported for a read longer than a block that is not a multiple
of the block size: after `m` non-zero bytes are written to a freshly created
file and the cursor is set back to 0, `fsRead(fd, m)` returns
`m - (B - m mod B)`. -/
theorem fsRead_nonaligned_length (s : BFS) (fd m : Int) (data buf : Buf)
    (hwf : WF s) (hfresh : Fresh s fd) (h0 : 512 < m) (h1 : m < 2147483648)
    (hm : m % 512 ≠ 0) (hnz : ∀ i, 0 ≤ i → i < m → data i ≠ 0) :
    ∃ s1 s2 s3 out,
      fsWrite s fd m data = Except.ok (s1, 0) ∧
      fsSeek s1 fd 0 SEEK_SET = Except.ok (s2, 0) ∧
      fsRead s2 fd m buf = Except.ok (s3, m - (512 - m % 512), out) := by
  obtain ⟨sw, s1, s2, hP, hw, ht1, hsk, ht2, hin, hmap, hdisk⟩ :=
    write_rewind s fd m data hwf hfresh.1 (by omega) h1
  obtain ⟨whole, hwh, hr⟩ := fsRead_big s2 fd m buf h0 h1 (by omega) (by omega)
  have ef : bfsTell s2 fd / 512 + (m + 511) / 512 - 1 = m / 512 := by
    rw [ht2]
    omega
  have hblk : ∀ p, bfsRead s2 (bfsFdToInum s2 fd) (bfsTell s2 fd / 512 + (m + 511) / 512 - 1) p
      = sw.disk (sw.dbnOf (bfsFdToInum s fd) (m / 512)) p := by
    intro p
    rw [ef, hin]
    show s2.disk (s2.dbnOf (bfsFdToInum s fd) (m / 512)) p = _
    rw [hmap, hdisk]
  have hal : 0 ≤ sw.dbnOf (bfsFdToInum s fd) (m / 512) := by
    have := (hP.data (m - 1) (by omega) (by omega)).1
    have e : (m - 1) / 512 = m / 512 := by omega
    rw [e] at this
    exact this
  have hex := trailingZeros_exact
    (bfsRead s2 (bfsFdToInum s2 fd) (bfsTell s2 fd / 512 + (m + 511) / 512 - 1))
    (m % 512).toNat
    (by
      rw [hblk]
      have hd := (hP.data (m - 1) (by omega) (by omega)).2
      have e1 : (m - 1) / 512 = m / 512 := by omega
      have e2 : (m - 1) % 512 = (((m % 512).toNat : Nat) : Int) - 1 := by omega
      have e3 : (0 : Int) + (m - 1 - 0) = m - 1 := by omega
      rw [e1, e2, e3] at hd
      rw [hd]
      exact hnz (m - 1) (by omega) (by omega))
    512 (by omega)
    (by
      intro p hp0 hp1
      rw [hblk]
      exact hP.fresh _ (m / 512) p (by omega) (by omega) (hfresh.2 _) hal (by omega))
  rw [hex] at hr
  have e : m - ((512 - (m % 512).toNat : Nat) : Int) = m - (512 - m % 512) := by omega
  rw [e] at hr
  exact ⟨s1, s2, _, _, hw, hsk, hr⟩

/-- C11, counterexample: with the cursor at 2147483647, `fsSeek(fd, 1, SEEK_CUR)`
returns 0 and leaves the cursor at -2147483648, not at 2147483647 + 1. -/
theorem fsSeek_cur_overflow :
    fsTell maxCursFS 3 = 2147483647 ∧ retOf (fsSeek maxCursFS 3 1 SEEK_CUR) = some 0 ∧
    fsTell (stateOf (fsSeek maxCursFS 3 1 SEEK_CUR)) 3 = -2147483648 := by
  decide

/-- C11, amended: for a cursor `c`, a file size and an offset `≥ 0` (all `i32`
values), `fsSeek` returns 0 for each of the three whence values; the cursor
becomes `offset` for `SEEK_SET`, `c + offset` for `SEEK_CUR` whenever
`c + offset ≤ 2147483647`, and `fsSize(fd) + offset` for `SEEK_END` whenever
`fsSize(fd) + offset ≤ 2147483647`; and `fsSeek(fd, 0, SEEK_END)` makes
`fsTell(fd)` equal `fsSize(fd)`. -/
theorem fsSeek_sets_cursor (s : BFS) (fd offset : Int) (h0 : 0 ≤ offset)
    (hc0 : -2147483648 ≤ bfsTell s fd) (hz0 : -2147483648 ≤ fsSize s fd)
    (hz1 : fsSize s fd ≤ 2147483647) :
    (∃ s1, fsSeek s fd offset SEEK_SET = Except.ok (s1, 0) ∧ fsTell s1 fd = offset) ∧
    (∃ s1, fsSeek s fd offset SEEK_CUR = Except.ok (s1, 0) ∧
      (bfsTell s fd + offset ≤ 2147483647 → fsTell s1 fd = bfsTell s fd + offset)) ∧
    (∃ s1, fsSeek s fd offset SEEK_END = Except.ok (s1, 0) ∧
      (fsSize s fd + offset ≤ 2147483647 → fsTell s1 fd = fsSize s fd + offset)) ∧
    (∃ s1, fsSeek s fd 0 SEEK_END = Except.ok (s1, 0) ∧ fsTell s1 fd = fsSize s1 fd) := by
  refine ⟨⟨_, fsSeek_set s fd offset h0, bfsTell_setCurs s fd offset⟩,
    ⟨_, fsSeek_cur s fd offset h0, ?_⟩, ⟨_, fsSeek_end s fd offset h0, ?_⟩,
    ⟨_, fsSeek_end s fd 0 (le_refl _), ?_⟩⟩
  · intro hb
    show bfsTell _ fd = _
    rw [bfsTell_setCurs]
    exact wrap32_eq (by omega) (by omega)
  · intro hb
    show bfsTell _ fd = _
    rw [bfsTell_setCurs]
    exact wrap32_eq (by omega) (by omega)
  · show bfsTell _ fd = fsSize s fd
    rw [bfsTell_setCurs]
    have : wrap32 (fsSize s fd + 0) = fsSize s fd + 0 := wrap32_eq (by omega) (by omega)
    rw [this]
    omega

/-- Witness of C11, amended: seeking by 7 in the HELLOWORLD file with the cursor
at 5. -/
theorem fsSeek_sets_cursor_witness :
    bfsTell helloAt5 3 = 5 ∧ fsSize helloAt5 3 = 1024 ∧
    (∃ s1, fsSeek helloAt5 3 7 SEEK_SET = Except.ok (s1, 0) ∧ fsTell s1 3 = 7) ∧
    (∃ s1, fsSeek helloAt5 3 7 SEEK_CUR = Except.ok (s1, 0) ∧
      (bfsTell helloAt5 3 + 7 ≤ 2147483647 → fsTell s1 3 = bfsTell helloAt5 3 + 7)) ∧
    (∃ s1, fsSeek helloAt5 3 7 SEEK_END = Except.ok (s1, 0) ∧
      (fsSize helloAt5 3 + 7 ≤ 2147483647 → fsTell s1 3 = fsSize helloAt5 3 + 7)) ∧
    (∃ s1, fsSeek helloAt5 3 0 SEEK_END = Except.ok (s1, 0) ∧ fsTell s1 3 = fsSize s1 3) :=
  ⟨by decide, by decide,
    fsSeek_sets_cursor helloAt5 3 7 (by decide) (by decide) (by decide) (by decide)⟩

/-- C12: for every state, handle and whence value (one of the three or any
other), `fsSeek` with an offset `< 0` stops with `FATAL(EBADCURS)`: the check
comes before the whence is looked at and before any assignment, so the call
produces no new state and the cursor and everything else stay as they were. -/
theorem fsSeek_negative_offset (s : BFS) (fd offset whence : Int) (h : offset < 0) :
    fsSeek s fd offset whence = Except.error Err.EBADCURS := by
  simp [fsSeek, h]

/-- Witness of C12: `fsSeek(3, -1, w)` on the HELLOWORLD file for the three
whence values and for the unknown value 7. -/
theorem fsSeek_negative_offset_witness :
    fsSeek helloAt5 3 (-1) SEEK_SET = Except.error Err.EBADCURS ∧
    fsSeek helloAt5 3 (-1) SEEK_CUR = Except.error Err.EBADCURS ∧
    fsSeek helloAt5 3 (-1) SEEK_END = Except.error Err.EBADCURS ∧
    fsSeek helloAt5 3 (-1) 7 = Except.error Err.EBADCURS :=
  ⟨fsSeek_negative_offset helloAt5 3 (-1) SEEK_SET (by decide),
    fsSeek_negative_offset helloAt5 3 (-1) SEEK_CUR (by decide),
    fsSeek_negative_offset helloAt5 3 (-1) SEEK_END (by decide),
    fsSeek_negative_offset helloAt5 3 (-1) 7 (by decide)⟩

/-- C13: for every state, handle and offset `≥ 0`, `fsSeek` fails exactly when
whence is none of `SEEK_SET`, `SEEK_CUR`, `SEEK_END`; it then stops with
`FATAL(EBADWHENCE)` in the `default` case, before any assignment, so the cursor
stays as it was. -/
theorem fsSeek_bad_whence (s : BFS) (fd offset whence : Int) (h : 0 ≤ offset) :
    ((∃ e, fsSeek s fd offset whence = Except.error e) ↔
      (whence ≠ SEEK_SET ∧ whence ≠ SEEK_CUR ∧ whence ≠ SEEK_END)) ∧
    ((whence ≠ SEEK_SET ∧ whence ≠ SEEK_CUR ∧ whence ≠ SEEK_END) →
      fsSeek s fd offset whence = Except.error Err.EBADWHENCE) := by
  have h1 : ¬ offset < 0 := by omega
  have hbad : (whence ≠ SEEK_SET ∧ whence ≠ SEEK_CUR ∧ whence ≠ SEEK_END) →
      fsSeek s fd offset whence = Except.error Err.EBADWHENCE := by
    intro hw
    simp [fsSeek, h1, hw.1, hw.2.1, hw.2.2]
  refine ⟨⟨?_, fun hw => ⟨_, hbad hw⟩⟩, hbad⟩
  rintro ⟨e, he⟩
  refine ⟨?_, ?_, ?_⟩
  · intro hw
    rw [hw, fsSeek_set s fd offset h] at he
    cases he
  · intro hw
    rw [hw, fsSeek_cur s fd offset h] at he
    cases he
  · intro hw
    rw [hw, fsSeek_end s fd offset h] at he
    cases he

/-- Witness of C13: `fsSeek(3, 0, 7)` on the HELLOWORLD file. -/
theorem fsSeek_bad_whence_witness :
    ((∃ e, fsSeek helloAt5 3 0 7 = Except.error e) ↔
      ((7 : Int) ≠ SEEK_SET ∧ (7 : Int) ≠ SEEK_CUR ∧ (7 : Int) ≠ SEEK_END)) ∧
    (((7 : Int) ≠ SEEK_SET ∧ (7 : Int) ≠ SEEK_CUR ∧ (7 : Int) ≠ SEEK_END) →
      fsSeek helloAt5 3 0 7 = Except.error Err.EBADWHENCE) :=
  fsSeek_bad_whence helloAt5 3 0 7 (by decide)

/-- The allocations of one `fsWrite`: every block it asks the allocator for
belongs to the file, was unallocated, and has an index between `c div B` and
`(c + count - 1) div B + 1`, the block after the last one written included. -/
theorem fsWrite_alloc_range (s : BFS) (fd count : Int) (buf : Buf) (hwf : WF s)
    (hc0 : 0 ≤ bfsTell s fd) (hc1 : bfsTell s fd < 2147483648)
    (hn0 : 0 ≤ count) (hn1 : count < 2147483648) :
    ∃ s1 evs, fsWrite s fd count buf = Except.ok (s1, 0) ∧ s1.trace = s.trace ++ evs ∧
      ∀ i f, Event.alloc i f ∈ evs →
        i = bfsFdToInum s fd ∧ bfsTell s fd / 512 ≤ f ∧
          f ≤ (bfsTell s fd + count - 1) / 512 + 1 ∧ bfsFbnToDbn s i f < 0 := by
  obtain ⟨s2, hP, he⟩ := fsWrite_spec s fd count buf hwf hn0 hn1 hc0 hc1
  obtain ⟨evs, ht, _, ha⟩ := hP.trace
  exact ⟨_, evs, he, ht, ha⟩

/-- C14 (the code at the failing inputs): on a fresh file, `fsWrite` of the 10
bytes HELLOWORLD at cursor 0, a range that lies in block 0, allocates block 0,
writes it, and then allocates block 1 as well; and `fsWrite` of 0 bytes
allocates block 0. -/
theorem fsWrite_allocates_ahead :
    (0 + 10 - 1) / BYTESPERBLOCK = 0 ∧
    (stateOf (fsWrite emptyFS 3 10 helloWorld)).trace
      = [Event.alloc 3 0, Event.write 0, Event.alloc 3 1] ∧
    0 ≤ bfsFbnToDbn (stateOf (fsWrite emptyFS 3 10 helloWorld)) 3 1 ∧
    retOf (fsWrite emptyFS 3 0 helloWorld) = some 0 ∧
    (stateOf (fsWrite emptyFS 3 0 helloWorld)).trace = [Event.alloc 3 0] := by
  decide

/-- C15 (the code at the failing input): in the HELLOWORLD file, whose size is
reported as 1024, `fsSeek(fd, 5000, SEEK_SET)` returns 0 and puts the cursor at
5000, and `fsSize` still reports 1024. -/
theorem fsSize_ignores_seek :
    fsSize helloFS 3 = 1024 ∧ retOf (fsSeek helloFS 3 5000 SEEK_SET) = some 0 ∧
    fsTell helloFarFS 3 = 5000 ∧ fsSize helloFarFS 3 = 1024 := by
  decide

/-- C16 (the code at the failing input): from a new handle with cursor 0,
`fsSeek(fd, 2147483647, SEEK_SET)` and then `fsSeek(fd, 2147483647, SEEK_CUR)`
both return 0, and the cursor is then -2. -/
theorem cursor_becomes_negative :
    fsTell emptyFS 3 = 0 ∧ 0 ≤ fsSize emptyFS 3 ∧
    retOf (fsSeek emptyFS 3 2147483647 SEEK_SET) = some 0 ∧
    retOf (fsSeek maxCursFS 3 2147483647 SEEK_CUR) = some 0 ∧
    fsTell overflowFS 3 = -2 := by
  decide

theorem trailingZeros_run (b : Buf) :
    ∀ k : Nat, (∀ p : Int, (k : Int) - (trailingZeros b k : Nat) ≤ p → p < (k : Int) → b p = 0) ∧
      (trailingZeros b k < k → b ((k : Int) - (trailingZeros b k : Nat) - 1) ≠ 0) := by
  intro k
  induction k with
  | zero =>
    refine ⟨?_, ?_⟩
    · intro p h1 h2
      simp only [trailingZeros] at h1
      omega
    · intro h
      simp [trailingZeros] at h
  | succ k ih =>
    by_cases hk : b (k : Int) = 0
    · have e : trailingZeros b (k + 1) = trailingZeros b k + 1 := by
        simp [trailingZeros, hk]
      rw [e]
      refine ⟨?_, ?_⟩
      · intro p h1 h2
        by_cases hp : p = (k : Int)
        · rw [hp]
          exact hk
        · exact ih.1 p (by omega) (by omega)
      · intro h
        have := ih.2 (by omega)
        have e2 : ((k + 1 : Nat) : Int) - ((trailingZeros b k + 1 : Nat) : Int) - 1
            = (k : Int) - (trailingZeros b k : Nat) - 1 := by omega
        rw [e2]
        exact this
    · have e : trailingZeros b (k + 1) = 0 := by
        simp [trailingZeros, hk]
      rw [e]
      refine ⟨?_, ?_⟩
      · intro p h1 h2
        omega
      · intro _
        have e2 : ((k + 1 : Nat) : Int) - ((0 : Nat) : Int) - 1 = (k : Int) := by omega
        rw [e2]
        exact hk

/-- C17: the trimming rule of the multi-block read path. For a cursor `c ≥ 0`
and a count above `B` (both `i32` values), `fsRead` returns `count - z`, where
`z`, between 0 and `B`, is the length of the run of zero bytes at the end of
the whole block `c div B + ceil(count / B) - 1`, the last one fetched: the
bytes at offsets `B - z .. B - 1` of that block are zero and, unless `z = B`,
the byte at offset `B - z - 1` is not. -/
theorem fsRead_trim_rule (s : BFS) (fd count : Int) (buf : Buf)
    (hc0 : 0 ≤ bfsTell s fd) (hc1 : bfsTell s fd < 2147483648)
    (h0 : BYTESPERBLOCK < count) (h1 : count < 2147483648) :
    ∃ (z : Int) (s1 : BFS) (out : Buf),
      fsRead s fd count buf = Except.ok (s1, count - z, out) ∧ 0 ≤ z ∧ z ≤ BYTESPERBLOCK ∧
      (∀ p, BYTESPERBLOCK - z ≤ p → p < BYTESPERBLOCK →
        bfsRead s (bfsFdToInum s fd)
          (bfsTell s fd / BYTESPERBLOCK + (count + BYTESPERBLOCK - 1) / BYTESPERBLOCK - 1) p
          = 0) ∧
      (z < BYTESPERBLOCK →
        bfsRead s (bfsFdToInum s fd)
          (bfsTell s fd / BYTESPERBLOCK + (count + BYTESPERBLOCK - 1) / BYTESPERBLOCK - 1)
          (BYTESPERBLOCK - z - 1) ≠ 0) := by
  unfold BYTESPERBLOCK at h0
  show ∃ (z : Int) (s1 : BFS) (out : Buf),
      fsRead s fd count buf = Except.ok (s1, count - z, out) ∧ 0 ≤ z ∧ z ≤ 512 ∧
      (∀ p, 512 - z ≤ p → p < 512 →
        bfsRead s (bfsFdToInum s fd) (bfsTell s fd / 512 + (count + 512 - 1) / 512 - 1) p
          = 0) ∧
      (z < 512 →
        bfsRead s (bfsFdToInum s fd) (bfsTell s fd / 512 + (count + 512 - 1) / 512 - 1)
          (512 - z - 1) ≠ 0)
  have ef : bfsTell s fd / 512 + (count + 512 - 1) / 512 - 1
      = bfsTell s fd / 512 + (count + 511) / 512 - 1 := by omega
  rw [ef]
  obtain ⟨whole, _, hr⟩ := fsRead_big s fd count buf h0 h1 hc0 hc1
  have hle := trailingZeros_le (bfsRead s (bfsFdToInum s fd)
    (bfsTell s fd / 512 + (count + 511) / 512 - 1)) 512
  have hrun := trailingZeros_run (bfsRead s (bfsFdToInum s fd)
    (bfsTell s fd / 512 + (count + 511) / 512 - 1)) 512
  refine ⟨_, _, _, hr, by omega, by omega, ?_, ?_⟩
  · intro p hp0 hp1
    exact hrun.1 p (by omega) (by omega)
  · intro hz
    have := hrun.2 (by omega)
    exact this

/-- Witness of C17: reading 522 bytes of the file that holds 522 bytes of
value 1. -/
theorem fsRead_trim_rule_witness :
    bfsTell onesFS 3 = 0 ∧
    ∃ (z : Int) (s1 : BFS) (out : Buf),
      fsRead onesFS 3 522 zeroBuf = Except.ok (s1, 522 - z, out) ∧ 0 ≤ z ∧
      z ≤ BYTESPERBLOCK ∧
      (∀ p, BYTESPERBLOCK - z ≤ p → p < BYTESPERBLOCK →
        bfsRead onesFS (bfsFdToInum onesFS 3)
          (bfsTell onesFS 3 / BYTESPERBLOCK + (522 + BYTESPERBLOCK - 1) / BYTESPERBLOCK - 1) p
          = 0) ∧
      (z < BYTESPERBLOCK →
        bfsRead onesFS (bfsFdToInum onesFS 3)
          (bfsTell onesFS 3 / BYTESPERBLOCK + (522 + BYTESPERBLOCK - 1) / BYTESPERBLOCK - 1)
          (BYTESPERBLOCK - z - 1) ≠ 0) :=
  ⟨by decide, fsRead_trim_rule onesFS 3 522 zeroBuf (by decide) (by decide) (by decide)
    (by decide)⟩

theorem fsSeek_ok_form {s s1 : BFS} {fd offset whence r : Int}
    (h : fsSeek s fd offset whence = Except.ok (s1, r)) :
    ∃ c, s1 = setCurs s (bfsFindOFTE s (bfsFdToInum s fd)) c := by
  unfold fsSeek at h
  split_ifs at h
  · injection h with h
    injection h with h _
    exact ⟨_, h.symm⟩
  · injection h with h
    injection h with h _
    exact ⟨_, h.symm⟩
  · injection h with h
    injection h with h _
    exact ⟨_, h.symm⟩

theorem fsRead_ok_form {s s1 : BFS} {fd numb r : Int} {buf out : Buf}
    (h : fsRead s fd numb buf = Except.ok (s1, r, out)) :
    ∃ c, s1 = setCurs s (bfsFindOFTE s (bfsFdToInum s fd)) c := by
  unfold fsRead at h
  simp only at h
  split_ifs at h
  · split at h
    · cases h
    · split at h
      · cases h
      · rename_i hs
        injection h with h
        injection h with h _
        rw [← h]
        exact fsSeek_ok_form hs
  · split at h
    · cases h
    · rename_i hs
      injection h with h
      injection h with h _
      rw [← h]
      exact fsSeek_ok_form hs

/-- C18: `fsSeek` and `fsRead` never modify storage. If either call, on the
handle `fd`, returns with the state `s1`, then the contents of every block, the
logical-to-physical block map, the allocator's frontier (so the set of
allocated blocks), the file sizes, the record of storage calls and the handle
bindings are as before; every other entry of the open file table is as before;
and the handle's own entry keeps its inode and reference count, only its cursor
can differ. `fsTell` and `fsSize` are queries that only yield a value. -/
theorem seek_read_frame (s s1 : BFS) (fd : Int)
    (h : (∃ offset whence r, fsSeek s fd offset whence = Except.ok (s1, r)) ∨
      (∃ numb buf r out, fsRead s fd numb buf = Except.ok (s1, r, out))) :
    s1.disk = s.disk ∧ s1.dbnOf = s.dbnOf ∧ s1.nextFree = s.nextFree ∧
    s1.size = s.size ∧ s1.trace = s.trace ∧ s1.fdInum = s.fdInum ∧
    s1.oftSlot = s.oftSlot ∧ (∀ fd1, fsSize s1 fd1 = fsSize s fd1) ∧
    (∀ k, k ≠ bfsFindOFTE s (bfsFdToInum s fd) → s1.g_oft k = s.g_oft k) ∧
    (∀ k, (s1.g_oft k).inum = (s.g_oft k).inum ∧ (s1.g_oft k).refs = (s.g_oft k).refs) := by
  have hform : ∃ c, s1 = setCurs s (bfsFindOFTE s (bfsFdToInum s fd)) c := by
    rcases h with ⟨offset, whence, r, h⟩ | ⟨numb, buf, r, out, h⟩
    · exact fsSeek_ok_form h
    · exact fsRead_ok_form h
  obtain ⟨c, hc⟩ := hform
  subst hc
  refine ⟨rfl, rfl, rfl, rfl, rfl, rfl, rfl, fun _ => rfl, ?_, ?_⟩
  · intro k hk
    simp [setCurs, hk]
  · intro k
    simp only [setCurs]
    split <;> exact ⟨rfl, rfl⟩

/-- Witness of C18: `fsSeek(3, 5, SEEK_SET)` on the HELLOWORLD file. -/
theorem seek_read_frame_witness :
    helloAt5.disk = helloFS.disk ∧ helloAt5.dbnOf = helloFS.dbnOf ∧
    helloAt5.nextFree = helloFS.nextFree ∧
    helloAt5.size = helloFS.size ∧ helloAt5.trace = helloFS.trace ∧
    helloAt5.fdInum = helloFS.fdInum ∧
    helloAt5.oftSlot = helloFS.oftSlot ∧ (∀ fd1, fsSize helloAt5 fd1 = fsSize helloFS fd1) ∧
    (∀ k, k ≠ bfsFindOFTE helloFS (bfsFdToInum helloFS 3) →
      helloAt5.g_oft k = helloFS.g_oft k) ∧
    (∀ k, (helloAt5.g_oft k).inum = (helloFS.g_oft k).inum ∧
      (helloAt5.g_oft k).refs = (helloFS.g_oft k).refs) :=
  seek_read_frame helloFS helloAt5 3
    (Or.inl ⟨5, SEEK_SET, 0, by rw [fsSeek_set helloFS 3 5 (by decide)]; rfl⟩)

/-- C19, counterexample: with the cursor at 2147483640, `fsRead(fd, 10)` returns
10 and leaves the cursor at -2147483646, not at 2147483640 + 10. -/
theorem fsRead_small_cursor_overflow :
    fsTell nearMaxFS 3 = 2147483640 ∧ readRet (fsRead nearMaxFS 3 10 zeroBuf) = some 10 ∧
    fsTell (stateOf (fsRead nearMaxFS 3 10 zeroBuf)) 3 = -2147483646 := by
  decide

/-- C19, amended: the single-block read path applies no trimming. For a cursor
`c ≥ 0` (an `i32`) and a count with `0 ≤ count ≤ B`, `fsRead` fetches the one
block `c div B`, copies its first `count` bytes to the caller's buffer and
returns exactly `count`, whatever the block contains; the cursor after the call
is `c + count` whenever `c + count ≤ 2147483647`. -/
theorem fsRead_single_block_no_trim (s : BFS) (fd count : Int) (buf : Buf)
    (hc0 : 0 ≤ bfsTell s fd) (h0 : 0 ≤ count) (h1 : count ≤ BYTESPERBLOCK) :
    ∃ s1, fsRead s fd count buf =
        Except.ok (s1, count,
          memcpy buf 0 (bfsRead s (bfsFdToInum s fd) (bfsTell s fd / BYTESPERBLOCK)) 0 count) ∧
      (bfsTell s fd + count ≤ 2147483647 → fsTell s1 fd = bfsTell s fd + count) := by
  unfold BYTESPERBLOCK at h1
  have hr := fsRead_small s fd count buf h0 h1
  rw [tdiv_block hc0] at hr
  refine ⟨_, hr, ?_⟩
  intro hb
  show bfsTell _ fd = _
  rw [bfsTell_setCurs]
  exact wrap32_eq (by omega) (by omega)

/-- Witness of C19, amended: reading 10 bytes of the HELLOWORLD file from
cursor 5. -/
theorem fsRead_single_block_no_trim_witness :
    bfsTell helloAt5 3 = 5 ∧
    ∃ s1, fsRead helloAt5 3 10 zeroBuf =
        Except.ok (s1, 10,
          memcpy zeroBuf 0
            (bfsRead helloAt5 (bfsFdToInum helloAt5 3) (bfsTell helloAt5 3 / BYTESPERBLOCK))
            0 10) ∧
      (bfsTell helloAt5 3 + 10 ≤ 2147483647 → fsTell s1 3 = bfsTell helloAt5 3 + 10) :=
  ⟨by decide, fsRead_single_block_no_trim helloAt5 3 10 zeroBuf (by decide) (by decide)
    (by decide)⟩

/-- C20: over-reading to a block boundary recovers the written length. On a
freshly created file, for every `q ≥ 2` (with `q * B` an `i32`) and every `m`
with `(q - 1) * B < m ≤ q * B`, after `m` non-zero bytes are written at cursor 0
and the cursor is set back to 0, `fsRead(fd, q * B)` returns exactly `m`,
leaves the cursor at `m`, and the first `m` places of the caller's buffer hold
the bytes written. -/
theorem overread_recovers_length (s : BFS) (fd q m : Int) (data buf : Buf)
    (hwf : WF s) (hfresh : Fresh s fd) (hq : 2 ≤ q)
    (hq1 : q * BYTESPERBLOCK ≤ 2147483647)
    (hm0 : (q - 1) * BYTESPERBLOCK < m) (hm1 : m ≤ q * BYTESPERBLOCK)
    (hnz : ∀ i, 0 ≤ i → i < m → data i ≠ 0) :
    ∃ s1 s2 s3 out,
      fsWrite s fd m data = Except.ok (s1, 0) ∧
      fsSeek s1 fd 0 SEEK_SET = Except.ok (s2, 0) ∧
      fsRead s2 fd (q * BYTESPERBLOCK) buf = Except.ok (s3, m, out) ∧
      fsTell s3 fd = m ∧ ∀ i, 0 ≤ i → i < m → out i = data i := by
  unfold BYTESPERBLOCK at hq1 hm0 hm1
  show ∃ s1 s2 s3 out,
      fsWrite s fd m data = Except.ok (s1, 0) ∧
      fsSeek s1 fd 0 SEEK_SET = Except.ok (s2, 0) ∧
      fsRead s2 fd (q * 512) buf = Except.ok (s3, m, out) ∧
      fsTell s3 fd = m ∧ ∀ i, 0 ≤ i → i < m → out i = data i
  obtain ⟨sw, s1, s2, hP, hw, ht1, hsk, ht2, hin, hmap, hdisk⟩ :=
    write_rewind s fd m data hwf hfresh.1 (by omega) (by omega)
  obtain ⟨whole, hwh, hr⟩ := fsRead_big s2 fd (q * 512) buf (by omega) (by omega)
    (by omega) (by omega)
  have ef : bfsTell s2 fd / 512 + (q * 512 + 511) / 512 - 1 = q - 1 := by
    rw [ht2]
    omega
  have hblk : ∀ p, bfsRead s2 (bfsFdToInum s2 fd)
      (bfsTell s2 fd / 512 + (q * 512 + 511) / 512 - 1) p
      = sw.disk (sw.dbnOf (bfsFdToInum s fd) (q - 1)) p := by
    intro p
    rw [ef, hin]
    show s2.disk (s2.dbnOf (bfsFdToInum s fd) (q - 1)) p = _
    rw [hmap, hdisk]
  have hal : 0 ≤ sw.dbnOf (bfsFdToInum s fd) (q - 1) := by
    have := (hP.data (m - 1) (by omega) (by omega)).1
    have e : (m - 1) / 512 = q - 1 := by omega
    rw [e] at this
    exact this
  have hex := trailingZeros_exact
    (bfsRead s2 (bfsFdToInum s2 fd) (bfsTell s2 fd / 512 + (q * 512 + 511) / 512 - 1))
    (m - (q - 1) * 512).toNat
    (by
      rw [hblk]
      have hd := (hP.data (m - 1) (by omega) (by omega)).2
      have e1 : (m - 1) / 512 = q - 1 := by omega
      have e2 : (m - 1) % 512 = (((m - (q - 1) * 512).toNat : Nat) : Int) - 1 := by omega
      have e3 : (0 : Int) + (m - 1 - 0) = m - 1 := by omega
      rw [e1, e2, e3] at hd
      rw [hd]
      exact hnz (m - 1) (by omega) (by omega))
    512 (by omega)
    (by
      intro p hp0 hp1
      rw [hblk]
      exact hP.fresh _ (q - 1) p (by omega) (by omega) (hfresh.2 _) hal (by omega))
  rw [hex] at hr
  have e : q * 512 - ((512 - (m - (q - 1) * 512).toNat : Nat) : Int) = m := by omega
  rw [e] at hr
  refine ⟨s1, s2, _, _, hw, hsk, hr, ?_, ?_⟩
  · show bfsTell _ fd = m
    rw [bfsTell_setCurs, ht2]
    have : wrap32 (0 + m) = 0 + m := wrap32_eq (by omega) (by omega)
    rw [this]
    omega
  · intro i hi0 hi1
    have hin2 : (0 : Int) ≤ i ∧ i < 0 + q * 512 := by omega
    simp only [memcpy, hin2, and_self, if_true]
    have e4 : (0 : Int) + (i - 0) = i := by omega
    rw [e4, hwh i hi0 (by omega), ht2, hin]
    have hd := (hP.data i hi0 (by omega)).2
    rw [e4] at hd
    rw [← hd]
    show s2.disk (s2.dbnOf (bfsFdToInum s fd) (0 / 512 + i / 512)) (i % 512) = _
    rw [hmap, hdisk]
    have e5 : (0 : Int) / 512 + i / 512 = i / 512 := by omega
    rw [e5]

/-- Witness of C20: 522 bytes of value 1 written to a fresh file and read back
with a count of two blocks. -/
theorem overread_recovers_length_witness :
    WF emptyFS ∧ Fresh emptyFS 3 ∧ (∀ i : Int, 0 ≤ i → i < 522 → ones i ≠ 0) ∧
    ∃ s1 s2 s3 out,
      fsWrite emptyFS 3 522 ones = Except.ok (s1, 0) ∧
      fsSeek s1 3 0 SEEK_SET = Except.ok (s2, 0) ∧
      fsRead s2 3 (2 * BYTESPERBLOCK) zeroBuf = Except.ok (s3, 522, out) ∧
      fsTell s3 3 = 522 ∧ ∀ i, 0 ≤ i → i < 522 → out i = ones i :=
  ⟨WF_emptyFS, Fresh_emptyFS 3, fun _ _ _ => one_ne_zero,
    overread_recovers_length emptyFS 3 2 522 ones zeroBuf WF_emptyFS (Fresh_emptyFS 3)
      (by decide) (by decide) (by decide) (by decide) (fun _ _ _ => one_ne_zero)⟩

end Bfs
